import Mathlib

/-!
Verification of the panicparse `stack` package (`context.go`).

The source file is a line-oriented state machine that recognizes Go runtime
stack dumps (`parseDump` / `scanningState.scan`), regex line recognizers, and a
filesystem-based source-root resolver (`findRoots` / `rootedIn`).

Modelling conventions:
* Text is `List Char` (`LC`).  Lines carry their terminators exactly as the
  custom `scanLines` splitter produces them.
* Go regexes are anchored (`^...$`) and are matched with Go's leftmost-first
  (Perl-style backtracking) semantics.  The simple regexes are hand-derived
  into deterministic parsers (each carries a comment justifying that the
  backtracking search is deterministic for that pattern); the one genuinely
  backtracking regex, `reFile`, is expressed as a regex AST evaluated by a
  small leftmost-first backtracking engine (`reM`).
* Disk and environment access (`os.Stat`, `os.Getenv`, `user.Current`,
  `runtime.GOROOT`) are threaded as explicit parameters.
* Machine integers: Go `int` is `Int` with explicit `2^63-1` bounds where
  `strconv` checks them; `uint64` argument values are `Nat` bounded by
  `2^64-1` in the parser.
-/

namespace PP

abbrev LC := List Char

/-- First index of `'\n'`, as in `bytes.IndexByte(data, '\n')`. -/
def idxNL (l : LC) : Option Nat := l.findIdx? (fun c => c == '\n')

/-- `s[:len(s)-n]`. -/
def dropLastN (n : Nat) (l : LC) : LC := l.take (l.length - n)

/-- Go `strings.Split(s, sep)` for a non-empty separator: split around every
occurrence of `sep`; `Split("", sep) = [""]`. -/
def findSub (sep : LC) : LC → Option Nat
  | [] => if sep = [] then some 0 else none
  | c :: rest =>
    if sep.isPrefixOf (c :: rest) then some 0
    else match findSub sep rest with
      | some i => some (i + 1)
      | none => none

def splitSepGo (sep : LC) : Nat → LC → List LC
  | 0, s => [s]
  | fuel + 1, s =>
    match findSub sep s with
    | none => [s]
    | some i => s.take i :: splitSepGo sep fuel (s.drop (i + sep.length))

def splitSep (sep s : LC) : List LC := splitSepGo sep s.length s

/-- Go `strings.Replace(s, "\\", "/", -1)`. -/
def replaceBackslash (s : LC) : LC := s.map (fun c => if c == '\\' then '/' else c)

/-- ASCII model of Go `strings.TrimSpace` (`unicode.IsSpace`); runtime
traceback text is ASCII.  Used only inside error payloads. -/
def isGoSpace (c : Char) : Bool :=
  c == ' ' || c == '\t' || c == '\n' || c == '\x0B' || c == '\x0C' || c == '\r'

def goTrimSpace (t : LC) : LC :=
  ((t.dropWhile isGoSpace).reverse.dropWhile isGoSpace).reverse

/-! ### Go `strconv` -/

/-- `strconv.Atoi` (i.e. `ParseInt(s, 10, 64)` on a 64-bit host), modelled for
the `\d+` captures it is applied to in `context.go` (no sign, digits only).
Returns `(value, err == nil)`; on range overflow Go returns the clamped
`MaxInt64` together with an error, which `scan` sometimes ignores
(the `minutes` capture). -/
def digitsToNat (s : LC) : Nat :=
  s.foldl (fun n c => n * 10 + (c.toNat - '0'.toNat)) 0

def goAtoi (s : LC) : Int × Bool :=
  if s ≠ [] ∧ s.all Char.isDigit then
    let n := digitsToNat s
    if n ≤ 2 ^ 63 - 1 then ((n : Int), true) else (((2 ^ 63 - 1 : Nat) : Int), false)
  else (0, false)

/-- Digit value of a byte as in `strconv.ParseUint`'s loop
(`lower(c) = c | 0x20`). -/
def goDigitVal (c : Char) : Option Nat :=
  let b := c.toNat
  if 48 ≤ b ∧ b ≤ 57 then some (b - 48)
  else
    let l := b ||| 0x20
    if 97 ≤ l ∧ l ≤ 122 then some (l - 97 + 10) else none

/-- Go `underscoreOK` (strconv): underscores must sit between digits (or
between a base prefix and a digit). `saw` states: `^` start, `0` digit/prefix,
`_` underscore, `!` other. -/
def underscoreOKLoop (hex : Bool) : Char → LC → Bool
  | saw, [] => saw ≠ '_'
  | saw, c :: rest =>
    if c.isDigit ∨ (hex ∧ (let l := c.toNat ||| 0x20; 97 ≤ l ∧ l ≤ 102)) then
      underscoreOKLoop hex '0' rest
    else if c = '_' then
      if saw ≠ '0' then false else underscoreOKLoop hex '_' rest
    else if saw = '_' then false
    else underscoreOKLoop hex '!' rest

def underscoreOK (s : LC) : Bool :=
  let s := match s with
    | c :: rest => if c = '+' ∨ c = '-' then rest else c :: rest
    | [] => []
  match s with
  | '0' :: b :: rest =>
    if (b.toNat ||| 0x20) = 'b'.toNat ∨ (b.toNat ||| 0x20) = 'o'.toNat
        ∨ (b.toNat ||| 0x20) = 'x'.toNat then
      underscoreOKLoop ((b.toNat ||| 0x20) = 'x'.toNat) '0' rest
    else underscoreOKLoop false '^' ('0' :: b :: rest)
  | other => underscoreOKLoop false '^' other

/-- Digits of `s` in `base` accumulated onto `n` (underscores skipped when
`allowUnd`), `none` on an invalid digit — the loop of `strconv.ParseUint`. -/
def goUintAccum (base : Nat) (allowUnd : Bool) : LC → Nat → Option Nat
  | [], n => some n
  | c :: rest, n =>
    if allowUnd ∧ c = '_' then goUintAccum base allowUnd rest n
    else match goDigitVal c with
      | none => none
      | some d => if base ≤ d then none else goUintAccum base allowUnd rest (n * base + d)

/-- `strconv.ParseUint(s, 0, 64)`: base prefix detection (`0b`/`0o`/`0x`,
legacy leading-`0` octal), digits with Go 1.13 underscore rules, 64-bit range
check.  `none` models any non-nil error (the callers only test `err != nil`). -/

def goParseUint0 (s : LC) : Option Nat :=
  if s = [] then none
  else
    -- base detection for base-argument 0 (always underscore-permitting)
    let (base, body) :=
      match s with
      | '0' :: b :: rest =>
        if s.length ≥ 3 ∧ (b.toNat ||| 0x20) = 'b'.toNat then (2, rest)
        else if s.length ≥ 3 ∧ (b.toNat ||| 0x20) = 'o'.toNat then (8, rest)
        else if s.length ≥ 3 ∧ (b.toNat ||| 0x20) = 'x'.toNat then (16, rest)
        else (8, b :: rest)
      | ['0'] => (8, [])
      | other => (10, other)
    match goUintAccum base true body 0 with
    | none => none
    | some n =>
      if n > 2 ^ 64 - 1 then none
      else if body.contains '_' ∧ ¬ underscoreOK s then none
      else some n

/-! ### Line-shape recognizers (the regexes of `context.go`)

Go's `regexp` implements leftmost-first (Perl backtracking-order) submatch
semantics.  Every regex here is start-anchored, so only backtracking over the
quantifiers/alternations matters.  The simple patterns below admit a
deterministic reading, justified case by case; `reFile` genuinely needs
backtracking and is handled by the engine further down. -/

def isSpaceTab (c : Char) : Bool := c == ' ' || c == '\t'

/-- `reRoutineHeader = ^([ \t]*)goroutine (\d+) \[([^\]]+)\]\:$`.

Deterministic: `[ \t]*` is greedy and the following literal starts with `g`,
so no shorter run of blanks can help a failed match; likewise `\d+` is
followed by a space and `[^\]]+` cannot give back a non-`]` character to
match `\]`.  Returns the three captures `(indent, id digits, state text)`. -/
def matchRoutineHeader (t : LC) : Option (LC × LC × LC) :=
  let p := t.takeWhile isSpaceTab
  let r1 := t.drop p.length
  if ("goroutine ".data).isPrefixOf r1 then
    let r2 := r1.drop 10
    let ds := r2.takeWhile Char.isDigit
    if ds = [] then none
    else
      let r3 := r2.drop ds.length
      if (" [".data).isPrefixOf r3 then
        let r4 := r3.drop 2
        let st := r4.takeWhile (fun c => c != ']')
        if st = [] then none
        else if r4.drop st.length = ("]:".data) then some (p, ds, st) else none
      else none
  else none

/-- `reMinutes = ^(\d+) minutes$`.  Deterministic: `\d+` greedy, followed by a
space. -/
def matchMinutes (t : LC) : Option LC :=
  let ds := t.takeWhile Char.isDigit
  if ds ≠ [] ∧ t.drop ds.length = (" minutes".data) then some ds else none

def unavailText : LC := "goroutine running on other thread; stack unavailable".data

/-- `reUnavail = ^(?:\t| +)goroutine running on other thread; stack
unavailable` (no end anchor; `MatchString`).  Deterministic: the literal
starts with `g`, so after a `\t`, or after the maximal run of spaces, either
the literal follows or nothing does. -/
def reUnavailMatch (t : LC) : Bool :=
  match t with
  | '\t' :: r => unavailText.isPrefixOf r
  | ' ' :: _ => unavailText.isPrefixOf (t.dropWhile (fun c => c == ' '))
  | _ => false

/-- `reCreated = ^created by (.+)$`.  Deterministic: fixed literal, then `.+`
must cover the whole remainder (so the remainder is non-empty and contains no
newline). -/
def matchCreated (t : LC) : Option LC :=
  if ("created by ".data).isPrefixOf t then
    if t.drop 11 ≠ [] ∧ ¬ (t.drop 11).contains '\n' then some (t.drop 11) else none
  else none

/-- Index of the last occurrence of `c` in `t`. -/
def lastIdxOf (c : Char) (t : LC) : Option Nat :=
  match t.reverse.findIdx? (fun x => x == c) with
  | some k => some (t.length - 1 - k)
  | none => none

/-- `reFunc = ^(.+)\((.*)\)$`.  Leftmost-first: `.+` is greedy, so the `\(`
matches the *last* `(` of the line that leaves at least one character before
it; `.*` then spans up to the final `)`, which `$` forces to be the last
character.  `.` excludes `'\n'`, so any newline kills the match.  Captures
`(name, argument text)`. -/
def matchFunc (t : LC) : Option (LC × LC) :=
  if t.contains '\n' then none
  else if t.getLast? = some ')' then
    match lastIdxOf '(' t with
    | some j => if 1 ≤ j then some (t.take j, (t.drop (j + 1)).dropLast) else none
    | none => none
  else none

/-! ### Leftmost-first backtracking engine, for `reFile` and the race regexes

All quantifiers in those patterns range over single-character classes, so the
AST needs `starCls` only (with `+` as class-then-star); recursion stays
structural and the evaluator reduces inside the kernel. -/

inductive RE where
  | eps : RE
  | chr : Char → RE
  | cls : (Char → Bool) → RE
  | cat : RE → RE → RE
  | alt : RE → RE → RE
  | starCls : (Char → Bool) → RE
  | group : Nat → RE → RE

abbrev Caps := List (Nat × LC)

/-- Greedy choice of a repetition count: try `n`, then `n-1`, … then `0`. -/
def tryFrom (k : Nat → Option Caps) : Nat → Option Caps
  | 0 => k 0
  | n + 1 =>
    match k (n + 1) with
    | some r => some r
    | none => tryFrom k n

/-- Backtracking matcher in continuation style.  Alternation prefers its left
branch and `starCls` the longest repetition, i.e. exactly the order in which
a Perl-style (and hence Go submatch) search explores the pattern.  A completed
`group` prepends `(i, consumed text)` to the capture list; only the captures
of the successful derivation survive. -/
def reM : RE → LC → Caps → (LC → Caps → Option Caps) → Option Caps
  | .eps, s, caps, k => k s caps
  | .chr c, s, caps, k =>
    match s with
    | x :: r => if x == c then k r caps else none
    | [] => none
  | .cls p, s, caps, k =>
    match s with
    | x :: r => if p x then k r caps else none
    | [] => none
  | .cat a b, s, caps, k => reM a s caps (fun s' caps' => reM b s' caps' k)
  | .alt a b, s, caps, k =>
    match reM a s caps k with
    | some r => some r
    | none => reM b s caps k
  | .starCls p, s, caps, k => tryFrom (fun n => k (s.drop n) caps) ((s.takeWhile p).length)
  | .group i a, s, caps, k =>
    reM a s caps (fun s' caps' => k s' ((i, s.take (s.length - s'.length)) :: caps'))

/-- Anchored full match (`^...$`): the continuation accepts only an empty
remainder. -/
def reFullMatch (r : RE) (s : LC) : Option Caps :=
  reM r s [] (fun rest caps => if rest = [] then some caps else none)

def capLookup (i : Nat) (caps : Caps) : Option LC :=
  (caps.find? (fun pr => pr.1 == i)).map (fun pr => pr.2)

def reStr : LC → RE
  | [] => .eps
  | c :: r => .cat (.chr c) (reStr r)

def rePlusCls (p : Char → Bool) : RE := .cat (.cls p) (.starCls p)

/-- `.` in Go regexp: any character except `'\n'`. -/
def dotCls (c : Char) : Bool := c != '\n'

def hexCls (c : Char) : Bool := c.isDigit || ('a' ≤ c && c ≤ 'f')

/-- `reFile = ^(?:\t| +)(\?\?|\<autogenerated\>|.+\.(?:c|go|s))\:(\d+)`
`(?:| \+0x[0-9a-f]+)(?:| fp=0x[0-9a-f]+ sp=0x[0-9a-f]+(?:| pc=0x[0-9a-f]+))$`. -/
def reFileRE : RE :=
  .cat (.alt (.chr '\t') (rePlusCls (fun c => c == ' ')))
  (.cat (.group 1 (.alt (reStr "??".data) (.alt (reStr "<autogenerated>".data)
        (.cat (rePlusCls dotCls)
          (.cat (.chr '.')
            (.alt (reStr "c".data) (.alt (reStr "go".data) (reStr "s".data))))))))
  (.cat (.chr ':')
  (.cat (.group 2 (rePlusCls Char.isDigit))
  (.cat (.alt .eps (.cat (reStr " +0x".data) (rePlusCls hexCls)))
        (.alt .eps
          (.cat (reStr " fp=0x".data)
            (.cat (rePlusCls hexCls)
              (.cat (reStr " sp=0x".data)
                (.cat (rePlusCls hexCls)
                  (.alt .eps (.cat (reStr " pc=0x".data) (rePlusCls hexCls))))))))))))

/-- `reFile` submatch: `(source path, line-number digits)`. -/
def matchFile (t : LC) : Option (LC × LC) :=
  match reFullMatch reFileRE t with
  | none => none
  | some caps =>
    match capLookup 1 caps, capLookup 2 caps with
    | some p, some d => some (p, d)
    | _, _ => none

/-- `reRaceOperationHeader = ^(Read|Write) at (0x[0-9a-f]+) by goroutine
(\d+):$`. -/
def reRaceOperationHeaderRE : RE :=
  .cat (.group 1 (.alt (reStr "Read".data) (reStr "Write".data)))
  (.cat (reStr " at ".data)
  (.cat (.group 2 (.cat (reStr "0x".data) (rePlusCls hexCls)))
  (.cat (reStr " by goroutine ".data)
  (.cat (.group 3 (rePlusCls Char.isDigit)) (.chr ':')))))

def matchRaceOperationHeader (t : LC) : Option (LC × LC × LC) :=
  match reFullMatch reRaceOperationHeaderRE t with
  | none => none
  | some caps =>
    match capLookup 1 caps, capLookup 2 caps, capLookup 3 caps with
    | some w, some a, some i => some (w, a, i)
    | _, _, _ => none

/-- `reRacePreviousOperationHeader = ^Previous (read|write) at (0x[0-9a-f]+)
by goroutine (\d+):$`. -/
def reRacePreviousOperationHeaderRE : RE :=
  .cat (reStr "Previous ".data)
  (.cat (.group 1 (.alt (reStr "read".data) (reStr "write".data)))
  (.cat (reStr " at ".data)
  (.cat (.group 2 (.cat (reStr "0x".data) (rePlusCls hexCls)))
  (.cat (reStr " by goroutine ".data)
  (.cat (.group 3 (rePlusCls Char.isDigit)) (.chr ':'))))))

def matchRacePreviousOperationHeader (t : LC) : Option (LC × LC × LC) :=
  match reFullMatch reRacePreviousOperationHeaderRE t with
  | none => none
  | some caps =>
    match capLookup 1 caps, capLookup 2 caps, capLookup 3 caps with
    | some w, some a, some i => some (w, a, i)
    | _, _, _ => none

/-- `reRaceGoroutine = ^Goroutine (\d+) \((running|finished)\) created
at:$`. -/
def reRaceGoroutineRE : RE :=
  .cat (reStr "Goroutine ".data)
  (.cat (.group 1 (rePlusCls Char.isDigit))
  (.cat (reStr " (".data)
  (.cat (.group 2 (.alt (reStr "running".data) (reStr "finished".data)))
  (reStr ") created at:".data))))

def matchRaceGoroutine (t : LC) : Option (LC × LC) :=
  match reFullMatch reRaceGoroutineRE t with
  | none => none
  | some caps =>
    match capLookup 1 caps, capLookup 2 caps with
    | some i, some st => some (i, st)
    | _, _ => none

/-! ### Data model

Modelled from the spec: the structures `Func`, `Arg`, `Args`, `Call`,
`Signature`, `Stack` and `Goroutine` are declared in another file of the
`stack` package (not under `src/`); their fields are fixed by their uses in
`context.go` and by spec §3 (execution unit / call / argument).  Only the
fields the core touches are modelled; `LocalSrcPath` / `IsStdlib` are
attached by the out-of-scope location-update step and are omitted.  Go zero
values are the `default`/`Inhabited` values below. -/

structure Func where
  Raw : LC := []
deriving DecidableEq, Inhabited

structure Arg where
  Value : Nat := 0
deriving DecidableEq, Inhabited

structure Args where
  Values : List Arg := []
  Elided : Bool := false
deriving DecidableEq, Inhabited

structure Call where
  Func : Func := {}
  Args : Args := {}
  SrcPath : LC := []
  Line : Int := 0
deriving DecidableEq, Inhabited

structure Signature where
  State : LC := []
  SleepMin : Int := 0
  SleepMax : Int := 0
  Locked : Bool := false
deriving DecidableEq, Inhabited

structure Stack where
  Calls : List Call := []
  Elided : Bool := false
deriving DecidableEq, Inhabited

structure Goroutine where
  Signature : Signature := {}
  ID : Int := 0
  First : Bool := false
  Stack : Stack := {}
  CreatedBy : Call := {}
deriving DecidableEq, Inhabited

/-! ### The state machine (`scanningState.scan`) -/

/-- The `state` enumeration of `context.go`. -/
inductive MState where
  | normal
  | betweenRoutine
  | gotRoutineHeader
  | gotFunc
  | gotCreated
  | gotFileFunc
  | gotFileCreated
  | gotUnavail
  | gotRaceHeader1
  | gotRaceHeader
  | gotRaceOperationHeader
  | gotRaceOperationFunc
  | gotRaceOperationFile
  | gotRaceGoroutineHeader
  | gotRaceGoroutineFunc
  | gotRaceGoroutineFile
  | betweenRaces
deriving DecidableEq, Inhabited

structure RaceOp where
  write : Bool
  addr : Nat
  id : Int
deriving DecidableEq, Inhabited

/-- `scanningState`.  The source field for the block indentation baseline is
called after the common prefix of the block's lines; it is named `indent`
here because that word is reserved in this development. -/
structure ScanState where
  raceDetectionEnabled : Bool := false
  goroutines : List Goroutine := []
  state : MState := .normal
  indent : LC := []
  races : List RaceOp := []
deriving DecidableEq, Inhabited

/-- The distinguishable `fmt.Errorf` errors of `context.go`, payloads
included. -/
inductive ScanError where
  | inconsistentIndentation (got expected : LC)
  | expectedFunc (got : LC)
  | expectedFile (got : LC)
  | expectedFileCreated (got : LC)
  | failedParseInt (line : LC)
  | expectedEmptyAfterUnavail (got : LC)
  | failedParseAddress (line : LC)
  | failedParseGoroutineId (line : LC)
  | expectedRaceFunc (got : LC)
  | expectedRaceFile (got : LC)
  | expectedEmptyAfterRaceFile (got : LC)
  | expectedFuncOrEndAfterRaceFile (got : LC)
  | expectedOperatorOrGoroutine (got : LC)
deriving DecidableEq

/-- String constants of `context.go`. -/
def lockedToThread : LC := "locked to thread".data
def elided : LC := "...additional frames elided...".data
def raceHeaderFooter : LC := "==================".data
def raceHeader : LC := "WARNING: DATA RACE".data

/-- `parseFunc`: on a `reFunc` match, fills `Func.Raw` and parses the
comma-separated arguments; `...` sets `Args.Elided`, an empty field stops
parsing, a bad integer aborts with an error but the fields parsed so far are
kept (the Go code mutates the `Call` in place before failing).  `none` models
`found == false`. -/
def parseArgsLoop (line : LC) : List LC → Args → Args × Option ScanError
  | [], acc => (acc, none)
  | a :: rest, acc =>
    if a = ("...".data) then parseArgsLoop line rest { acc with Elided := true }
    else if a = [] then (acc, none)
    else
      match goParseUint0 a with
      | none => (acc, some (.failedParseInt (goTrimSpace line)))
      | some v => parseArgsLoop line rest { acc with Values := acc.Values ++ [⟨v⟩] }

def parseFuncM (t : LC) : Option (Call × Option ScanError) :=
  match matchFunc t with
  | none => none
  | some (name, argstr) =>
    let (args, e) := parseArgsLoop t (splitSep (", ".data) argstr) {}
    some ({ Func := ⟨name⟩, Args := args }, e)

/-- `parseFile`: on a `reFile` match, parses the line number (`Atoi`, which
can only fail by 64-bit overflow here) and reports path and number; `none`
models `found == false`, `.error` a match with an unparsable number (the
`Call` is then left untouched by the Go code). -/
def parseFileM (t : LC) : Option (Except ScanError (LC × Int)) :=
  match matchFile t with
  | none => none
  | some (p, d) =>
    let (n, ok) := goAtoi d
    if ok then some (.ok (p, n)) else some (.error (.failedParseInt (goTrimSpace t)))

/-- Map `f` over the last element (the Go code mutates
`goroutines[len-1]` through the `cur` pointer). -/
def updateLast {α : Type} (f : α → α) : List α → List α
  | [] => []
  | [g] => [f g]
  | g :: rest => g :: updateLast f rest

/-- Update the goroutine's last call (`cur.Stack.Calls[len(cur.Stack.Calls)-1]`). -/
def setLastCallLoc (path : LC) (n : Int) (g : Goroutine) : Goroutine :=
  { g with Stack := { g.Stack with
      Calls := updateLast (fun c => { c with SrcPath := path, Line := n }) g.Stack.Calls } }

/-- Goroutine built from a recognized header: `items[0]` is the state label,
later items may be the `locked to thread` literal or a `N minutes` duration
(`Atoi` error ignored, so an overflowing duration is clamped). -/
def parseHeaderMods : List LC → Int × Bool → Int × Bool
  | [], acc => acc
  | it :: rest, (sleep, locked) =>
    if it = lockedToThread then parseHeaderMods rest (sleep, true)
    else
      match matchMinutes it with
      | some ds => parseHeaderMods rest ((goAtoi ds).1, locked)
      | none => parseHeaderMods rest (sleep, locked)

def headerGoroutine (isFirst : Bool) (id : Int) (stateDesc : LC) : Goroutine :=
  let items := splitSep (", ".data) stateDesc
  let (sleep, locked) := parseHeaderMods (items.drop 1) (0, false)
  { Signature := { State := items.headD [], SleepMin := sleep, SleepMax := sleep,
                   Locked := locked },
    ID := id, First := isFirst }

/-- The in-place mutations `scan` performs on the current goroutine
(`cur`), as named functions. -/
def appendCall (c : Call) (g : Goroutine) : Goroutine :=
  { g with Stack := { g.Stack with Calls := g.Stack.Calls ++ [c] } }

def setUnavailStack (g : Goroutine) : Goroutine :=
  { g with Stack := { g.Stack with Calls := [{ SrcPath := "<unavailable>".data }] } }

def setElided (g : Goroutine) : Goroutine :=
  { g with Stack := { g.Stack with Elided := true } }

def setCreatedByFunc (raw : LC) (g : Goroutine) : Goroutine :=
  { g with CreatedBy := { g.CreatedBy with Func := ⟨raw⟩ } }

def setCreatedByLoc (p : LC) (n : Int) (g : Goroutine) : Goroutine :=
  { g with CreatedBy := { g.CreatedBy with SrcPath := p, Line := n } }

/-- The `normal` / `betweenRoutine` case of `scan` (the Go `switch` falls
through from `normal` to `betweenRoutine`). -/
def scanNormalBR (s : ScanState) (line trimmed : LC) :
    ScanState × LC × Option ScanError :=
  match matchRoutineHeader trimmed with
  | some (p, idS, stS) =>
    let (id, ok) := goAtoi idS
    if ok then
      ({ s with
          goroutines := s.goroutines ++ [headerGoroutine s.goroutines.isEmpty id stS],
          state := .gotRoutineHeader, indent := p }, [], none)
    else if s.raceDetectionEnabled ∧ trimmed = raceHeaderFooter then
      ({ s with state := .gotRaceHeader1 }, [], none)
    else ({ s with state := .normal, indent := [] }, line, none)
  | none =>
    if s.raceDetectionEnabled ∧ trimmed = raceHeaderFooter then
      ({ s with state := .gotRaceHeader1 }, [], none)
    else ({ s with state := .normal, indent := [] }, line, none)

/-- `scan`'s dispatch on the current state, applied to the
indentation-stripped line. -/
def scanTrimmed (s : ScanState) (line trimmed : LC) :
    ScanState × LC × Option ScanError :=
  match s.state with
  | .normal => scanNormalBR s line trimmed
  | .betweenRoutine => scanNormalBR s line trimmed
  | .gotRoutineHeader =>
    if reUnavailMatch trimmed then
      ({ s with
          goroutines := updateLast setUnavailStack s.goroutines,
          state := .gotUnavail }, [], none)
    else
      match parseFuncM trimmed with
      | some (c, e) =>
        ({ s with
            goroutines := updateLast (appendCall c) s.goroutines,
            state := .gotFunc }, [], e)
      | none => (s, [], some (.expectedFunc (goTrimSpace trimmed)))
  | .gotFunc =>
    match parseFileM trimmed with
    | some (.error e) => (s, [], some e)
    | none => (s, [], some (.expectedFile (goTrimSpace trimmed)))
    | some (.ok (p, n)) =>
      ({ s with
          goroutines := updateLast (setLastCallLoc p n) s.goroutines,
          state := .gotFileFunc }, [], none)
  | .gotCreated =>
    match parseFileM trimmed with
    | some (.error e) => (s, [], some e)
    | none => (s, [], some (.expectedFileCreated trimmed))
    | some (.ok (p, n)) =>
      ({ s with
          goroutines := updateLast (setCreatedByLoc p n) s.goroutines,
          state := .gotFileCreated }, [], none)
  | .gotFileFunc =>
    match matchCreated trimmed with
    | some raw =>
      ({ s with
          goroutines := updateLast (setCreatedByFunc raw) s.goroutines,
          state := .gotCreated }, [], none)
    | none =>
      if elided = trimmed then
        ({ s with goroutines := updateLast setElided s.goroutines }, [], none)
      else
        match parseFuncM trimmed with
        | some (c, e) =>
          ({ s with
              goroutines := updateLast (appendCall c) s.goroutines,
              state := .gotFunc }, [], e)
        | none =>
          if trimmed = [] then ({ s with state := .betweenRoutine }, [], none)
          else ({ s with state := .normal, indent := [] }, line, none)
  | .gotFileCreated =>
    if trimmed = [] then ({ s with state := .betweenRoutine }, [], none)
    else ({ s with state := .normal, indent := [] }, line, none)
  | .gotUnavail =>
    if trimmed = [] then ({ s with state := .betweenRoutine }, [], none)
    else
      match matchCreated trimmed with
      | some raw =>
        ({ s with
            goroutines := updateLast (setCreatedByFunc raw) s.goroutines,
            state := .gotCreated }, [], none)
      | none => (s, [], some (.expectedEmptyAfterUnavail (goTrimSpace trimmed)))
  | .gotRaceHeader1 =>
    if raceHeader = trimmed then ({ s with state := .gotRaceHeader }, [], none)
    else ({ s with state := .normal }, line, none)
  | .gotRaceHeader =>
    match matchRaceOperationHeader trimmed with
    | some (w, addrS, idS) =>
      match goParseUint0 addrS with
      | none => (s, [], some (.failedParseAddress (goTrimSpace trimmed)))
      | some addr =>
        let (id, ok) := goAtoi idS
        if ok then
          ({ s with
              races := s.races ++ [⟨w == ("Write".data), addr, id⟩],
              state := .gotRaceOperationHeader }, [], none)
        else (s, [], some (.failedParseGoroutineId (goTrimSpace trimmed)))
    | none => ({ s with state := .normal }, line, none)
  | .gotRaceOperationHeader =>
    match parseFuncM trimmed with
    | some (_, e) => ({ s with state := .gotRaceOperationFunc }, [], e)
    | none => (s, [], some (.expectedRaceFunc trimmed))
  | .gotRaceGoroutineHeader =>
    match parseFuncM (trimmed.dropWhile (fun c => c == '\t' || c == ' ')) with
    | some (c, e) =>
      ({ s with
          goroutines := updateLast (appendCall c) s.goroutines,
          state := .gotRaceGoroutineFunc }, [], e)
    | none => (s, [], some (.expectedRaceFunc trimmed))
  | .gotRaceOperationFunc =>
    match parseFileM trimmed with
    | some (.error e) => (s, [], some e)
    | none => (s, [], some (.expectedRaceFile trimmed))
    | some (.ok _) => ({ s with state := .gotRaceOperationFile }, [], none)
  | .gotRaceGoroutineFunc =>
    match parseFileM trimmed with
    | some (.error e) => (s, [], some e)
    | none => (s, [], some (.expectedRaceFile trimmed))
    | some (.ok (p, n)) =>
      ({ s with
          goroutines := updateLast (setLastCallLoc p n) s.goroutines,
          state := .gotRaceGoroutineFile }, [], none)
  | .gotRaceOperationFile =>
    if trimmed = [] then ({ s with state := .betweenRaces }, [], none)
    else (s, [], some (.expectedEmptyAfterRaceFile trimmed))
  | .gotRaceGoroutineFile =>
    if trimmed = [] then ({ s with state := .betweenRaces }, [], none)
    else if trimmed = raceHeaderFooter then ({ s with state := .normal }, [], none)
    else
      match parseFuncM (trimmed.dropWhile (fun c => c == '\t' || c == ' ')) with
      | some (_, e) => ({ s with state := .gotRaceGoroutineFunc }, [], e)
      | none => (s, [], some (.expectedFuncOrEndAfterRaceFile trimmed))
  | .betweenRaces =>
    match matchRacePreviousOperationHeader trimmed with
    | some (w, addrS, idS) =>
      match goParseUint0 addrS with
      | none => (s, [], some (.failedParseAddress (goTrimSpace trimmed)))
      | some addr =>
        let (id, ok) := goAtoi idS
        if ok then
          ({ s with
              races := s.races ++ [⟨w == ("write".data), addr, id⟩],
              state := .gotRaceOperationHeader }, [], none)
        else (s, [], some (.failedParseGoroutineId (goTrimSpace trimmed)))
    | none =>
      match matchRaceGoroutine trimmed with
      | some (idS, stS) =>
        let (id, ok) := goAtoi idS
        if ok then
          ({ s with
              goroutines := s.goroutines ++
                [{ Signature := { State := stS }, ID := id,
                   First := s.goroutines.isEmpty }],
              state := .gotRaceGoroutineHeader }, [], none)
        else (s, [], some (.failedParseGoroutineId (goTrimSpace trimmed)))
      | none => (s, [], some (.expectedOperatorOrGoroutine trimmed))

/-- EOL trimming at the top of `scan`: `"\r\n"` first, then `"\n"`; `none`
when the line carries no terminator. -/
def trimLine (line : LC) : Option LC :=
  if ("\r\n".data).isSuffixOf line then some (dropLastN 2 line)
  else if ("\n".data).isSuffixOf line then some (dropLastN 1 line)
  else none

/-- Indentation-baseline check of `scan`: a non-empty line inside a block must
start with the block's recorded leading-whitespace prefix, which is then
stripped; otherwise the machine errors and resets to `normal`. -/
def scanIndented (s : ScanState) (line trimmed : LC) :
    ScanState × LC × Option ScanError :=
  if trimmed ≠ [] ∧ s.indent ≠ [] then
    if s.indent.isPrefixOf trimmed then
      scanTrimmed s line (trimmed.drop s.indent.length)
    else
      ({ s with state := .normal, indent := [] }, [],
        some (.inconsistentIndentation trimmed s.indent))
  else scanTrimmed s line trimmed

/-- `scanningState.scan`: one line in, `(new state, passthrough text, error)`
out.  A line with no terminator is passed through verbatim when outside a
stack trace, and otherwise processed as-is ("let it flow"). -/
def scan (s : ScanState) (line : LC) : ScanState × LC × Option ScanError :=
  match trimLine line with
  | none => if s.state = .normal then (s, line, none) else scanIndented s line line
  | some t => scanIndented s line t

/-! ### The line scanner (`scanLines`) and the scan loop (`parseDump`) -/

def maxScanTokenSize : Nat := 65536   -- bufio.MaxScanTokenSize

/-- `scanLines`: like `bufio.ScanLines` but keeping `'\n'` and `'\r'`, and
returning the buffered data as one token once it reaches
`bufio.MaxScanTokenSize`, so that the scanner never fails with `ErrTooLong`.
Result is `(advance, token, err)`; the function never produces an error. -/
def scanLines (data : LC) (atEOF : Bool) : Nat × LC × Option ScanError :=
  if atEOF ∧ data = [] then (0, [], none)
  else
    match idxNL data with
    | some i => (i + 1, data.take (i + 1), none)
    | none =>
      if atEOF then (data.length, data, none)
      else if data.length ≥ maxScanTokenSize then (data.length, data, none)
      else (0, [], none)

/-- The `bufio.Scanner` loop driving `scanLines`: the scanner buffers at most
`maxScanTokenSize` bytes, and `atEOF` holds exactly when the buffered window
reaches the end of the input.  Each step emits `scanLines`'s token and
advances; the loop ends on the empty token at EOF.  Fuel is structural
(`input.length + 1` suffices: every emitted token is non-empty). -/
def runScannerGo : Nat → LC → List LC
  | 0, _ => []
  | fuel + 1, input =>
    match scanLines (input.take maxScanTokenSize) (decide (input.length ≤ maxScanTokenSize)) with
    | (adv, tok, _) => if tok = [] then [] else tok :: runScannerGo fuel (input.drop adv)

def runScanner (input : LC) : List LC := runScannerGo (input.length + 1) input

/-- The loop body of `parseDump`: feed lines to `scan`, write every non-empty
returned chunk to the passthrough output, stop at the first error. -/
def runLines (s : ScanState) : List LC → ScanState × LC × Option ScanError
  | [] => (s, [], none)
  | l :: rest =>
    match scan s l with
    | (s', out, some e) => (s', out, some e)
    | (s', out, none) =>
      let r := runLines s' rest
      (r.1, out ++ r.2.1, r.2.2)

/-- `parseDump` on an already-split line sequence: goroutines found,
passthrough output, error.  Race-detection parsing is disabled
(`scanningState{}`), and `scanner.Err()` is `nil` because `scanLines` never
errors and the input is a pure byte sequence. -/
def parseDumpLines (lines : List LC) : List Goroutine × LC × Option ScanError :=
  let r := runLines {} lines
  (r.1.goroutines, r.2.1, r.2.2)

/-- `parseDump` on a raw input stream. -/
def parseDumpStr (input : LC) : List Goroutine × LC × Option ScanError :=
  parseDumpLines (runScanner input)

/-! ### The root resolver (`splitPath`, `rootedIn`, `findRoots`)

`isFile` (an `os.Stat` existence check) is threaded as an explicit
`LC → Bool` predicate on paths. -/

/-- Modelled from the spec: `pathJoin` lives in another file of the `stack`
package (not under `src/`); per spec §4.5 ("joined under …", components
joined with `/`) it is `strings.Join(elems, "/")`. -/
def pathJoin (elems : List LC) : LC := (elems.intersperse ("/".data)).flatten

/-- `splitPath`: split on `/`, keeping the leading separator(s) attached to
the first component and dropping empty components. -/
def splitPathStep : LC × List LC → Char → LC × List LC
  | (s, out), c =>
    if c ≠ '/' ∨ (out = [] ∧ s.count '/' = s.length) then (s ++ [c], out)
    else if s ≠ [] then ([], out ++ [s])
    else (s, out)

def splitPath (p : LC) : List LC :=
  if p = [] then []
  else
    let r := p.foldl splitPathStep ([], [])
    if r.1 ≠ [] then r.2 ++ [r.1] else r.2

/-- `rootedIn`: for `i = 1, 2, …, len(parts)-1` in order, test whether the
suffix `parts[i:]` joined under `root` names an existing file; the first hit
returns the joined prefix `parts[:i]`, otherwise `""`. -/
def rootedInFrom (isF : LC → Bool) (root : LC) (parts : List LC) : Nat → Nat → LC
  | _, 0 => []
  | i, fuel + 1 =>
    if isF (pathJoin [root, pathJoin (parts.drop i)]) then pathJoin (parts.take i)
    else rootedInFrom isF root parts (i + 1) fuel

def rootedIn (isF : LC → Bool) (root : LC) (parts : List LC) : LC :=
  rootedInFrom isF root parts 1 (parts.length - 1)

/-- `getFiles`: all call source paths, deduplicated and sorted
(`sort.Strings` is lexicographic byte order; insertion sort into a dedupe
set models map-then-sort). -/
def lcLe (a b : LC) : Bool :=
  match a, b with
  | [], _ => true
  | _ :: _, [] => false
  | x :: xs, y :: ys => if x = y then lcLe xs ys else decide (x < y)

def insertSorted (x : LC) : List LC → List LC
  | [] => [x]
  | y :: ys => if lcLe x y then x :: y :: ys else y :: insertSorted x ys

def getFiles (goroutines : List Goroutine) : List LC :=
  (goroutines.flatMap (fun g => g.Stack.Calls.map (fun c => c.SrcPath))).foldl
    (fun acc p => if p ∈ acc then acc else insertSorted p acc) []

/-- `Context`: `GOPATHs` (a Go `map[string]string`) is an association list
with insert-or-replace. -/
structure Context where
  Goroutines : List Goroutine := []
  GOROOT : LC := []
  GOPATHs : List (LC × LC) := []
  localgoroot : LC := []
  localgopaths : List LC := []
deriving DecidableEq, Inhabited

def mapInsert (k v : LC) : List (LC × LC) → List (LC × LC)
  | [] => [(k, v)]
  | (k', v') :: rest => if k' = k then (k, v) :: rest else (k', v') :: mapInsert k v rest

/-- `hasSrcPrefix`: some GOPATH key is a `<key>/src/` or `<key>/pkg/mod/`
prefix of `p`. -/
def hasSrcPrefix (p : LC) (m : List (LC × LC)) : Bool :=
  m.any (fun pr =>
    (pr.1 ++ "/src/".data).isPrefixOf p ∨ (pr.1 ++ "/pkg/mod/".data).isPrefixOf p)

/-- The per-file body of `findRoots`'s loop (`continue` = return `c`
unchanged beyond the update made so far). -/
def findRootsGopathLoop (isF : LC → Bool) (parts : List LC) (c : Context) :
    List LC → Context
  | [] => c
  | l :: rest =>
    let r1 := rootedIn isF (l ++ "/src".data) parts
    if r1 ≠ [] then { c with GOPATHs := mapInsert (dropLastN 4 r1) l c.GOPATHs }
    else
      let r2 := rootedIn isF (l ++ "/pkg/mod".data) parts
      if r2 ≠ [] then { c with GOPATHs := mapInsert (dropLastN 8 r2) l c.GOPATHs }
      else findRootsGopathLoop isF parts c rest

def findRootsFile (isF : LC → Bool) (c : Context) (f : LC) : Context :=
  if c.GOROOT ≠ [] ∧ (c.GOROOT ++ "/src/".data).isPrefixOf f then c
  else if hasSrcPrefix f c.GOPATHs then c
  else
    let parts := splitPath f
    let r := if c.GOROOT = [] then rootedIn isF (c.localgoroot ++ "/src".data) parts else []
    if r ≠ [] then { c with GOROOT := dropLastN 4 r }
    else findRootsGopathLoop isF parts c c.localgopaths

/-- `Context.findRoots`: resolve GOROOT and the GOPATH mapping by
filesystem suffix search over all distinct source paths. -/
def findRoots (isF : LC → Bool) (c : Context) : Context :=
  (getFiles c.Goroutines).foldl (findRootsFile isF) { c with GOPATHs := [] }

/-! ### Environment and `ParseDump` -/

/-- Process environment as read by `context.go`: `runtime.GOROOT()`,
`os.Getenv("GOPATH")` (empty = unset), `user.Current()` (`none` = error) and
`os.Getenv("HOME")`. -/
structure GoEnv where
  goroot : LC := []
  gopathEnv : LC := []
  userHomeDir : Option LC := none
  homeEnv : LC := []

/-- `filepath.SplitList` on a Unix host: split on `':'`, `SplitList("") = []`. -/
def splitList (s : LC) : List LC := if s = [] then [] else splitSep (":".data) s

/-- `getGOPATHs`: parsed GOPATH entries (backslashes normalized, one trailing
`/` trimmed), else a home-derived default; `none` models the `panic` raised
when GOPATH yields nothing, `user.Current` fails and `HOME` is empty. -/
def getGOPATHs (env : GoEnv) : Option (List LC) :=
  let out :=
    if env.gopathEnv ≠ [] then
      (splitList env.gopathEnv).foldl
        (fun acc v =>
          if v ≠ [] then
            let v := replaceBackslash v
            let v := if v.getLast? = some '/' then dropLastN 1 v else v
            acc ++ [v]
          else acc) []
    else []
  if out = [] then
    match env.userHomeDir with
    | some h => some [replaceBackslash (h ++ "/go".data)]
    | none =>
      if env.homeEnv = [] then none
      else some [replaceBackslash (env.homeEnv ++ "/go".data)]
  else some out

/-- Modelled from the spec: `nameArguments` (argument-value naming) is an
out-of-scope collaborator defined outside `src/`; per spec §1 it only assigns
names to argument values, fields this model does not carry, so it is the
identity here. -/
def nameArguments (goroutines : List Goroutine) : List Goroutine := goroutines

/-- Modelled from the spec: `Goroutine.updateLocations` fills the host-local
path and standard-library classification of each call (spec §3), fields this
model does not carry, so it is the identity here. -/
def updateLocations (_goroot _localgoroot : LC) (_gopaths : List (LC × LC))
    (g : Goroutine) : Goroutine :=
  g

/-- `ParseDump`.  The outer `Option` models termination: `none` is the
`panic` escaping from `getGOPATHs`.  Otherwise the result is
`(Context or nil, passthrough output, error)`. -/
def ParseDump (env : GoEnv) (isF : LC → Bool) (input : LC) (guesspaths : Bool) :
    Option (Option Context × LC × Option ScanError) :=
  let r := parseDumpStr input
  if r.1.length = 0 then some (none, r.2.1, r.2.2)
  else
    match getGOPATHs env with
    | none => none
    | some gps =>
      let c : Context :=
        { Goroutines := nameArguments r.1,
          localgoroot := replaceBackslash env.goroot,
          localgopaths := gps }
      let c :=
        if guesspaths then
          let c := findRoots isF c
          { c with Goroutines :=
              c.Goroutines.map (updateLocations c.GOROOT c.localgoroot c.GOPATHs) }
        else c
      some (some c, r.2.1, r.2.2)


/-! ## Theorems -/

/-- C5: argument-list parsing of a function-call line.
`main.f(1, 2, ...)` yields exactly the numeric Args 1 and 2 with
`Args.Elided = true`; `main.f()` yields zero Args and `Args.Elided = false`;
`main.f(1, )` yields exactly one Arg and no error, parsing stopping at the
empty trailing field. -/
theorem c5_parseFunc_args :
    parseFuncM ("main.f(1, 2, ...)".data) =
      some ({ Func := ⟨"main.f".data⟩,
              Args := { Values := [⟨1⟩, ⟨2⟩], Elided := true } }, none)
  ∧ parseFuncM ("main.f()".data) =
      some ({ Func := ⟨"main.f".data⟩,
              Args := { Values := [], Elided := false } }, none)
  ∧ parseFuncM ("main.f(1, )".data) =
      some ({ Func := ⟨"main.f".data⟩,
              Args := { Values := [⟨1⟩], Elided := false } }, none) :=
  ⟨rfl, rfl, rfl⟩

/-- C3, counterexample to the claim as stated: in this block the elision
marker is followed by a further function-call line of the same block (which
is parsed as a second `Call`), yet `Stack.Elided` is `true`; so `Elided` does
not imply that the marker stood after the *last* real call. -/
theorem c3_counterexample :
    (parseDumpLines
        ["goroutine 1 [running]:\n".data, "main.f()\n".data, "\t/a/b.go:10\n".data,
         "...additional frames elided...\n".data,
         "main.h()\n".data, "\t/a/c.go:20\n".data, "\n".data]).1.map
        (fun g => (g.Stack.Elided, g.Stack.Calls.map (fun c => c.Func.Raw)))
      = [(true, ["main.f".data, "main.h".data])]
  ∧ (parseDumpLines
        ["goroutine 1 [running]:\n".data, "main.f()\n".data, "\t/a/b.go:10\n".data,
         "...additional frames elided...\n".data,
         "main.h()\n".data, "\t/a/c.go:20\n".data, "\n".data]).2.2 = none :=
  ⟨rfl, rfl⟩

/-- C7, counterexample to the claim as stated: an input that ends right after
a goroutine header returns (without error) one goroutine whose `Stack.Calls`
is empty — neither non-empty nor the "stack unavailable" sentinel. -/
theorem c7_counterexample :
    (parseDumpLines ["goroutine 1 [running]:\n".data]).1.map (fun g => g.Stack.Calls)
      = [[]]
  ∧ (parseDumpLines ["goroutine 1 [running]:\n".data]).2.2 = none :=
  ⟨rfl, rfl⟩


/-- C4: on an indentation-prefix mismatch inside a block, `scan` raises the
indentation-consistency error and resets to the initial state; from that
reset state the next recognized goroutine header starts a fresh block
normally (a new goroutine is appended and the machine enters
`gotRoutineHeader`). -/
theorem c4_indent_mismatch_recovery
    (s : ScanState) (line t : LC)
    (hterm : trimLine line = some t)
    (hne : t ≠ []) (hind : s.indent ≠ [])
    (hpref : s.indent.isPrefixOf t = false)
    (hdrLine hdrCore p idS stS : LC)
    (hhdr : trimLine hdrLine = some hdrCore)
    (hmatch : matchRoutineHeader hdrCore = some (p, idS, stS))
    (hok : (goAtoi idS).2 = true) :
    scan s line = ({ s with state := .normal, indent := [] }, [],
        some (.inconsistentIndentation t s.indent))
  ∧ scan { s with state := .normal, indent := [] } hdrLine =
      ({ s with
          goroutines := s.goroutines ++
            [headerGoroutine s.goroutines.isEmpty (goAtoi idS).1 stS],
          state := .gotRoutineHeader, indent := p }, [], none) := by
  constructor
  · simp only [scan, hterm, scanIndented]
    rw [if_pos ⟨hne, hind⟩, if_neg (by simp [hpref])]
  · rcases hga : goAtoi idS with ⟨idv, okv⟩
    have hok2 : okv = true := by rw [hga] at hok; exact hok
    subst hok2
    simp only [scan, hhdr, scanIndented, scanTrimmed, scanNormalBR, hmatch, hga]
    simp


/-- Witness for C4 at a concrete mid-block state and concrete lines. -/
theorem c4_witness :
    scan ⟨false, [], .gotFunc, "  ".data, []⟩ ("main.f()\n".data)
      = (⟨false, [], .normal, [], []⟩, [],
         some (.inconsistentIndentation ("main.f()".data) ("  ".data)))
  ∧ scan ⟨false, [], .normal, [], []⟩ ("goroutine 2 [running]:\n".data)
      = (⟨false, [headerGoroutine true 2 ("running".data)], .gotRoutineHeader, [], []⟩,
         [], none) :=
  c4_indent_mismatch_recovery ⟨false, [], .gotFunc, "  ".data, []⟩
    ("main.f()\n".data) ("main.f()".data) rfl (by decide) (by decide) (by decide)
    ("goroutine 2 [running]:\n".data) ("goroutine 2 [running]:".data)
    [] ("2".data) ("running".data) rfl rfl rfl

/-- C9: the line scanner never fails.  `scanLines` returns no error on any
input; an unterminated final chunk at EOF is yielded whole; a buffered chunk
of at least `bufio.MaxScanTokenSize` bytes without a newline is yielded whole
instead of triggering `bufio.ErrTooLong`; and in the `normal` state `scan`
passes an unterminated chunk through verbatim, unchanged and unparsed. -/
theorem c9_long_lines_safe :
    (∀ (data : LC) (atEOF : Bool), (scanLines data atEOF).2.2 = none)
  ∧ (∀ data : LC, data ≠ [] → idxNL data = none →
      scanLines data true = (data.length, data, none))
  ∧ (∀ data : LC, idxNL data = none → maxScanTokenSize ≤ data.length →
      scanLines data false = (data.length, data, none))
  ∧ (∀ (s : ScanState) (line : LC), s.state = .normal → trimLine line = none →
      scan s line = (s, line, none)) := by
  refine ⟨?_, ?_, ?_, ?_⟩
  · intro data atEOF
    unfold scanLines
    split
    · rfl
    · cases h : idxNL data
      · simp only [h]
        split
        · rfl
        · split <;> rfl
      · simp [h]
  · intro data hne hnl
    unfold scanLines
    rw [if_neg (by simp [hne]), hnl]
    simp
  · intro data hnl hlen
    unfold scanLines
    rw [if_neg (by simp), hnl]
    simp [hlen]
  · intro s line hs hterm
    unfold scan
    rw [hterm, if_pos hs]

/-- Witness for C9 at concrete data: an unterminated 5-byte chunk at EOF, and
an unterminated chunk passed through in the `normal` state. -/
theorem c9_witness :
    scanLines ("hello".data) true = (5, "hello".data, none)
  ∧ scan ⟨false, [], .normal, [], []⟩ ("hello".data)
      = (⟨false, [], .normal, [], []⟩, "hello".data, none) :=
  ⟨c9_long_lines_safe.2.1 ("hello".data) (by decide) (by decide),
   c9_long_lines_safe.2.2.2 ⟨false, [], .normal, [], []⟩ ("hello".data) rfl (by decide)⟩


/-- The line as the header recognizer sees it: terminator stripped when one
is present. -/
def stripEOL (l : LC) : LC := (trimLine l).getD l

/-- Dispatch lemmas for `scan`, separating terminator handling, indentation
handling and the per-state branches. -/
theorem scan_terminated (s : ScanState) (l t : LC) (ht : trimLine l = some t) :
    scan s l = scanIndented s l t := by
  unfold scan
  rw [ht]

theorem scan_unterminated_mid (s : ScanState) (l : LC) (ht : trimLine l = none)
    (hs : s.state ≠ .normal) :
    scan s l = scanIndented s l l := by
  unfold scan
  rw [ht, if_neg hs]

theorem scanIndented_skip (s : ScanState) (l t : LC)
    (h : ¬(t ≠ [] ∧ s.indent ≠ [])) :
    scanIndented s l t = scanTrimmed s l t := by
  unfold scanIndented
  rw [if_neg h]

theorem scanIndented_strip (s : ScanState) (l t : LC)
    (hne : t ≠ []) (hind : s.indent ≠ []) (hp : s.indent.isPrefixOf t = true) :
    scanIndented s l t = scanTrimmed s l (t.drop s.indent.length) := by
  unfold scanIndented
  rw [if_pos ⟨hne, hind⟩, if_pos hp]

theorem scanTrimmed_normal (s : ScanState) (l t : LC) (hs : s.state = .normal) :
    scanTrimmed s l t = scanNormalBR s l t := by
  unfold scanTrimmed
  rw [hs]

theorem scanTrimmed_betweenRoutine (s : ScanState) (l t : LC)
    (hs : s.state = .betweenRoutine) :
    scanTrimmed s l t = scanNormalBR s l t := by
  unfold scanTrimmed
  rw [hs]

/-- In the `normal` state with no recorded indentation, a line whose stripped
form matches no goroutine header is passed through verbatim and the state is
unchanged (race detection disabled). -/
theorem scan_normal_nomatch (s : ScanState) (l : LC)
    (hs : s.state = .normal) (hind : s.indent = [])
    (hrace : s.raceDetectionEnabled = false)
    (hm : matchRoutineHeader (stripEOL l) = none) :
    scan s l = (s, l, none) := by
  have heta : ({ s with state := MState.normal, indent := ([] : LC) } : ScanState) = s := by
    cases s
    simp_all
  have hbody : scanNormalBR s l (stripEOL l) = (s, l, none) := by
    unfold scanNormalBR
    rw [hm, if_neg (by simp [hrace]), heta]
  cases ht : trimLine l with
  | none =>
    unfold scan
    rw [ht, if_pos hs]
  | some t =>
    have hst : stripEOL l = t := by unfold stripEOL; rw [ht]; rfl
    rw [scan_terminated s l t ht, scanIndented_skip s l t (by simp [hind]),
      scanTrimmed_normal s l t hs, ← hst, hbody]

/-- Folding `scan` over lines that never match the header recognizer leaves
the initial `normal` state untouched and reproduces the lines verbatim. -/
theorem runLines_all_normal (lines : List LC) :
    ∀ s : ScanState, s.state = .normal → s.indent = [] →
    s.raceDetectionEnabled = false →
    (∀ l ∈ lines, matchRoutineHeader (stripEOL l) = none) →
    runLines s lines = (s, lines.flatten, none) := by
  induction lines with
  | nil => intro s _ _ _ _; rfl
  | cons l rest ih =>
    intro s hs hind hrace hall
    have h1 : scan s l = (s, l, none) :=
      scan_normal_nomatch s l hs hind hrace (hall l (by simp))
    have h2 := ih s hs hind hrace (fun x hx => hall x (List.mem_cons_of_mem _ hx))
    simp only [runLines, h1, h2, List.flatten_cons]

/-- `scanLines` only ever takes a prefix of its data. -/
theorem scanLines_take (data : LC) (atEOF : Bool) :
    (scanLines data atEOF).2.1 = data.take (scanLines data atEOF).1 := by
  unfold scanLines
  split
  · rfl
  · split
    · rfl
    · split
      · exact (List.take_length data).symm
      · split
        · exact (List.take_length data).symm
        · rfl

theorem scanLines_adv_le (data : LC) (atEOF : Bool) :
    (scanLines data atEOF).1 ≤ data.length := by
  unfold scanLines
  split
  · exact Nat.zero_le _
  · split
    · next i heq =>
      have := (List.findIdx?_eq_some_iff_findIdx_eq.1 heq).1
      omega
    · split
      · exact Nat.le_refl _
      · split
        · exact Nat.le_refl _
        · exact Nat.zero_le _

/-- A non-empty token means the scanner advanced. -/
theorem scanLines_pos (data : LC) (atEOF : Bool)
    (h : (scanLines data atEOF).2.1 ≠ []) : 1 ≤ (scanLines data atEOF).1 := by
  revert h
  unfold scanLines
  split
  · intro h; exact absurd rfl h
  · split
    · intro _; exact Nat.succ_le_succ (Nat.zero_le _)
    · split
      · intro h
        have : data ≠ [] := h
        have : 0 < data.length := List.length_pos.2 this
        omega
      · split
        · intro h
          have : data ≠ [] := h
          have : 0 < data.length := List.length_pos.2 this
          omega
        · intro h; exact absurd rfl h

/-- The token is non-empty whenever the buffered data is non-empty, provided
that away from EOF the buffer is full (which is how `bufio.Scanner` calls the
split function). -/
theorem scanLines_tok_ne (data : LC) (atEOF : Bool) (hne : data ≠ [])
    (hfull : atEOF = false → maxScanTokenSize ≤ data.length) :
    (scanLines data atEOF).2.1 ≠ [] := by
  unfold scanLines
  rw [if_neg (by simp [hne])]
  split
  · next i heq =>
    intro hc
    have hlt := (List.findIdx?_eq_some_iff_findIdx_eq.1 heq).1
    have hlen := congrArg List.length hc
    rw [List.length_take] at hlen
    simp only [List.length_nil] at hlen
    have h0 : 0 < data.length := List.length_pos.2 hne
    omega
  · cases atEOF with
    | true => simp [hne]
    | false =>
      have hle := hfull rfl
      rw [if_neg (by simp)]
      rw [if_pos hle]
      simp [hne]

theorem runScannerGo_flatten :
    ∀ (fuel : Nat) (input : LC), input.length < fuel →
    (runScannerGo fuel input).flatten = input := by
  intro fuel
  induction fuel with
  | zero => intro input h; exact absurd h (Nat.not_lt_zero _)
  | succ fuel ih =>
    intro input h
    cases input with
    | nil => rfl
    | cons c rest =>
      have hbl : ((c :: rest).take maxScanTokenSize).length
          = min maxScanTokenSize (c :: rest).length := List.length_take _ _
      have hmax : maxScanTokenSize = 65536 := rfl
      have hb : (List.take maxScanTokenSize (c :: rest)) ≠ [] := by
        intro hc
        rw [hc] at hbl
        simp only [List.length_nil, List.length_cons] at hbl
        rw [Nat.min_def] at hbl
        split at hbl <;> omega
      have hfull : (decide ((c :: rest).length ≤ maxScanTokenSize)) = false →
          maxScanTokenSize ≤ ((c :: rest).take maxScanTokenSize).length := by
        intro hd
        have hd' : ¬ (c :: rest).length ≤ maxScanTokenSize := by simpa using hd
        rw [hbl]
        exact Nat.le_min.2 ⟨Nat.le_refl _, by omega⟩
      have htokne := scanLines_tok_ne _ _ hb hfull
      have hadvle := scanLines_adv_le ((c :: rest).take maxScanTokenSize)
        (decide ((c :: rest).length ≤ maxScanTokenSize))
      have htok := scanLines_take ((c :: rest).take maxScanTokenSize)
        (decide ((c :: rest).length ≤ maxScanTokenSize))
      have hadv1 := scanLines_pos _ _ htokne
      rcases hA : scanLines ((c :: rest).take maxScanTokenSize)
          (decide ((c :: rest).length ≤ maxScanTokenSize)) with ⟨adv, tok, err⟩
      rw [hA] at htokne hadvle htok hadv1
      simp only at htokne hadvle htok hadv1
      have hadvmax : adv ≤ maxScanTokenSize := by
        rw [hbl] at hadvle
        exact Nat.le_trans hadvle (Nat.min_le_left _ _)
      have htok' : tok = (c :: rest).take adv := by
        rw [htok, List.take_take, Nat.min_eq_left hadvmax]
      unfold runScannerGo
      rw [hA]
      simp only [if_neg htokne, List.flatten_cons]
      rw [ih ((c :: rest).drop adv) (by
        rw [List.length_drop]
        have h1 : 1 ≤ (c :: rest).length := by simp
        omega)]
      rw [htok', List.take_append_drop]

theorem runScanner_flatten (input : LC) : (runScanner input).flatten = input :=
  runScannerGo_flatten (input.length + 1) input (by omega)


/-- C1: if no scanned line matches the goroutine-header recognizer (race
detection is disabled by default), `parseDump` finds no goroutine and no
error and reproduces the input byte-for-byte on the passthrough output, and
`ParseDump` returns a nil `Context`. -/
theorem c1_identity_passthrough (input : LC)
    (hall : ∀ l ∈ runScanner input, matchRoutineHeader (stripEOL l) = none) :
    parseDumpStr input = ([], input, none)
  ∧ ∀ (env : GoEnv) (isF : LC → Bool) (guesspaths : Bool),
      ParseDump env isF input guesspaths = some (none, input, none) := by
  have h1 : runLines {} (runScanner input) = ({}, (runScanner input).flatten, none) :=
    runLines_all_normal (runScanner input) {} rfl rfl rfl hall
  have h2 : parseDumpStr input = ([], input, none) := by
    unfold parseDumpStr parseDumpLines
    rw [h1, runScanner_flatten]
  refine ⟨h2, ?_⟩
  intro env isF guesspaths
  unfold ParseDump
  rw [h2]
  rfl

/-- Witness for C1 on a concrete header-free input. -/
theorem c1_witness :
    parseDumpStr ("hello\nworld".data) = ([], "hello\nworld".data, none)
  ∧ ParseDump {} (fun _ => false) ("hello\nworld".data) true
      = some (none, "hello\nworld".data, none) :=
  ⟨(c1_identity_passthrough ("hello\nworld".data) (by decide)).1,
   (c1_identity_passthrough ("hello\nworld".data) (by decide)).2 {} (fun _ => false) true⟩

/-- Unfolding equation for `runLines` on a cons cell. -/
theorem runLines_cons (s : ScanState) (l : LC) (rest : List LC) :
    runLines s (l :: rest)
      = (match scan s l with
         | (s', out, some e) => (s', out, some e)
         | (s', out, none) =>
           ((runLines s' rest).1, out ++ (runLines s' rest).2.1,
            (runLines s' rest).2.2)) := rfl

/-- Splitting the scan loop at an error-free prefix. -/
theorem runLines_append (xs ys : List LC) :
    ∀ s : ScanState, (runLines s xs).2.2 = none →
    runLines s (xs ++ ys)
      = ((runLines (runLines s xs).1 ys).1,
         (runLines s xs).2.1 ++ (runLines (runLines s xs).1 ys).2.1,
         (runLines (runLines s xs).1 ys).2.2) := by
  induction xs with
  | nil =>
    intro s _
    simp [runLines]
  | cons l xs ih =>
    intro s h
    rcases hscan : scan s l with ⟨s', o', err⟩
    cases err with
    | some e =>
      rw [runLines_cons, hscan] at h
      simp at h
    | none =>
      have hx : runLines s (l :: xs)
          = ((runLines s' xs).1, o' ++ (runLines s' xs).2.1, (runLines s' xs).2.2) := by
        rw [runLines_cons, hscan]
      have h' : (runLines s' xs).2.2 = none := by
        rw [hx] at h
        exact h
      have hy : runLines s (l :: xs ++ ys)
          = ((runLines s' (xs ++ ys)).1, o' ++ (runLines s' (xs ++ ys)).2.1,
             (runLines s' (xs ++ ys)).2.2) := by
        rw [List.cons_append, runLines_cons, hscan]
      rw [hy, hx, ih s' h']
      simp [List.append_assoc]

/-- C8: when scanning stops at an error, all goroutines parsed up to the
failing line are still returned, in print order, alongside that error — both
by `parseDump` and by `ParseDump` (which still builds a `Context` around
them). -/
theorem c8_partial_results_on_error
    (pre : List LC) (x : LC) (rest : List LC)
    (s1 s2 : ScanState) (o1 o2 : LC) (e : ScanError)
    (h1 : runLines {} pre = (s1, o1, none))
    (hx : scan s1 x = (s2, o2, some e)) :
    parseDumpLines (pre ++ x :: rest) = (s2.goroutines, o1 ++ o2, some e)
  ∧ ∀ (env : GoEnv) (isF : LC → Bool) (input : LC) (gps : List LC),
      runScanner input = pre ++ x :: rest →
      getGOPATHs env = some gps →
      s2.goroutines ≠ [] →
      ParseDump env isF input false
        = some (some { Goroutines := s2.goroutines,
                       localgoroot := replaceBackslash env.goroot,
                       localgopaths := gps }, o1 ++ o2, some e) := by
  have hstep : runLines s1 (x :: rest) = (s2, o2, some e) := by
    unfold runLines
    rw [hx]
  have hrun : runLines {} (pre ++ x :: rest) = (s2, o1 ++ o2, some e) := by
    rw [runLines_append pre (x :: rest) {} (by rw [h1])]
    rw [h1]
    simp only
    rw [hstep]
  have hmain : parseDumpLines (pre ++ x :: rest) = (s2.goroutines, o1 ++ o2, some e) := by
    unfold parseDumpLines
    rw [hrun]
  refine ⟨hmain, ?_⟩
  intro env isF input gps hin hgp hne
  unfold ParseDump parseDumpStr
  rw [hin, hmain]
  rw [if_neg (by simp [hne]), hgp]
  rfl

/-- Witness for C8: a header followed by a grammar violation; the goroutine
opened by the header is returned together with the error. -/
theorem c8_witness :
    parseDumpLines (["goroutine 1 [running]:\n".data] ++ "garbage\n".data :: [])
      = ([headerGoroutine true 1 ("running".data)], [],
         some (.expectedFunc ("garbage".data)))
  ∧ ParseDump ⟨[], [], some ("/home/u".data), []⟩ (fun _ => false)
      ("goroutine 1 [running]:\ngarbage\n".data) false
      = some (some { Goroutines := [headerGoroutine true 1 ("running".data)],
                     localgoroot := [], localgopaths := ["/home/u/go".data] },
              [], some (.expectedFunc ("garbage".data))) := by
  have h := c8_partial_results_on_error ["goroutine 1 [running]:\n".data]
    ("garbage\n".data) []
    ⟨false, [headerGoroutine true 1 ("running".data)], .gotRoutineHeader, [], []⟩
    ⟨false, [headerGoroutine true 1 ("running".data)], .gotRoutineHeader, [], []⟩
    [] [] (.expectedFunc ("garbage".data)) (by decide) (by decide)
  exact ⟨h.1, h.2 ⟨[], [], some ("/home/u".data), []⟩ (fun _ => false)
    ("goroutine 1 [running]:\ngarbage\n".data) ["/home/u/go".data]
    (by decide) (by decide) (by decide)⟩


/-- The GOPATH-entry fold adds nothing when every entry is empty. -/
theorem gopath_fold_empty (L : List LC) (h : ∀ v ∈ L, v = ([] : LC)) :
    ∀ acc : List LC,
    L.foldl
      (fun acc v =>
        if v ≠ [] then
          acc ++ [if (replaceBackslash v).getLast? = some '/' then
                    dropLastN 1 (replaceBackslash v)
                  else replaceBackslash v]
        else acc) acc = acc := by
  induction L with
  | nil => intro acc; rfl
  | cons v L ih =>
    intro acc
    have hv : v = [] := h v (by simp)
    simp only [List.foldl_cons, hv]
    rw [if_neg (by simp)]
    exact ih (fun x hx => h x (List.mem_cons_of_mem _ hx)) acc

/-- C10: whenever at least one goroutine is found, `ParseDump` calls
`getGOPATHs` even with `guesspaths = false`; and when the `GOPATH` variable
yields no non-empty entry, the current-user lookup fails and `HOME` is unset,
`getGOPATHs` panics, so `ParseDump` panics instead of returning. -/
theorem c10_getGOPATHs_panic (env : GoEnv)
    (h1 : ∀ v ∈ splitList env.gopathEnv, v = ([] : LC))
    (h2 : env.userHomeDir = none) (h3 : env.homeEnv = []) :
    getGOPATHs env = none
  ∧ ∀ (isF : LC → Bool) (guesspaths : Bool) (input : LC),
      (parseDumpStr input).1 ≠ [] →
      ParseDump env isF input guesspaths = none := by
  have hg : getGOPATHs env = none := by
    unfold getGOPATHs
    have hout :
        (if env.gopathEnv ≠ [] then
          (splitList env.gopathEnv).foldl
            (fun acc v =>
              if v ≠ [] then
                acc ++ [if (replaceBackslash v).getLast? = some '/' then
                          dropLastN 1 (replaceBackslash v)
                        else replaceBackslash v]
              else acc) []
         else []) = ([] : List LC) := by
      split
      · exact gopath_fold_empty _ h1 []
      · rfl
    rw [hout, if_pos rfl, h2, if_pos h3]
  refine ⟨hg, ?_⟩
  intro isF guesspaths input hne
  unfold ParseDump
  rcases hr : parseDumpStr input with ⟨gs, out, err⟩
  rw [hr] at hne
  simp only at hne ⊢
  rw [if_neg (by simp [hne]), hg]

/-- Witness for C10: empty environment, one-goroutine input. -/
theorem c10_witness :
    getGOPATHs ⟨[], [], none, []⟩ = none
  ∧ ParseDump ⟨[], [], none, []⟩ (fun _ => false)
      ("goroutine 1 [running]:\n".data) false = none :=
  ⟨(c10_getGOPATHs_panic ⟨[], [], none, []⟩ (by decide) rfl rfl).1,
   (c10_getGOPATHs_panic ⟨[], [], none, []⟩ (by decide) rfl rfl).2
     (fun _ => false) false ("goroutine 1 [running]:\n".data) (by decide)⟩

/-- `rootedIn`'s loop stops at the first (smallest-index) hit. -/
theorem rootedInFrom_hit (isF : LC → Bool) (root : LC) (parts : List LC) :
    ∀ (fuel i0 i : Nat), i0 ≤ i → i < i0 + fuel →
    isF (pathJoin [root, pathJoin (parts.drop i)]) = true →
    (∀ j, i0 ≤ j → j < i → isF (pathJoin [root, pathJoin (parts.drop j)]) = false) →
    rootedInFrom isF root parts i0 fuel = pathJoin (parts.take i) := by
  intro fuel
  induction fuel with
  | zero => intro i0 i hle hlt _ _; omega
  | succ fuel ih =>
    intro i0 i hle hlt hhit hmiss
    unfold rootedInFrom
    by_cases hc : i0 = i
    · subst hc
      rw [if_pos hhit]
    · have hi0 : i0 < i := Nat.lt_of_le_of_ne hle hc
      rw [if_neg (by simp [hmiss i0 (Nat.le_refl _) hi0])]
      exact ih (i0 + 1) i hi0 (by omega) hhit (fun j hj1 hj2 => hmiss j (by omega) hj2)

/-- C6: for the remote path `/remote/src/pkg/sub/file.go` and a local
toolchain root under which `src/pkg/sub/file.go` exists, `findRoots` sets
`GOROOT` to `/remote` for every list of workspace-root candidates (none is
consulted); and in general the suffix search of `rootedIn` tries drop-counts
`i = 1, 2, …` in order and the smallest `i` whose remainder names an existing
file fixes the returned root prefix. -/
theorem c6_root_resolution :
    (∀ gopaths : List LC,
      findRoots (fun q => q == ("/goroot/src/pkg/sub/file.go".data))
        { Goroutines := [{ Stack := { Calls :=
            [{ SrcPath := "/remote/src/pkg/sub/file.go".data }] } }],
          localgoroot := "/goroot".data, localgopaths := gopaths }
        = { Goroutines := [{ Stack := { Calls :=
              [{ SrcPath := "/remote/src/pkg/sub/file.go".data }] } }],
            GOROOT := "/remote".data, GOPATHs := [],
            localgoroot := "/goroot".data, localgopaths := gopaths })
  ∧ (∀ (isF : LC → Bool) (root : LC) (parts : List LC) (i : Nat),
      1 ≤ i → i < parts.length →
      isF (pathJoin [root, pathJoin (parts.drop i)]) = true →
      (∀ j, 1 ≤ j → j < i →
        isF (pathJoin [root, pathJoin (parts.drop j)]) = false) →
      rootedIn isF root parts = pathJoin (parts.take i)) := by
  constructor
  · intro gopaths
    rfl
  · intro isF root parts i h1 h2 hhit hmiss
    unfold rootedIn
    exact rootedInFrom_hit isF root parts (parts.length - 1) 1 i h1 (by omega) hhit hmiss

/-- Witness for C6 at the concrete remote path and filesystem. -/
theorem c6_witness :
    findRoots (fun q => q == ("/goroot/src/pkg/sub/file.go".data))
      { Goroutines := [{ Stack := { Calls :=
          [{ SrcPath := "/remote/src/pkg/sub/file.go".data }] } }],
        localgoroot := "/goroot".data, localgopaths := ["/gp".data] }
      = { Goroutines := [{ Stack := { Calls :=
            [{ SrcPath := "/remote/src/pkg/sub/file.go".data }] } }],
          GOROOT := "/remote".data, GOPATHs := [],
          localgoroot := "/goroot".data, localgopaths := ["/gp".data] }
  ∧ rootedIn (fun q => q == ("/goroot/src/pkg/sub/file.go".data)) ("/goroot/src".data)
      ["/remote".data, "src".data, "pkg".data, "sub".data, "file.go".data]
      = "/remote/src".data :=
  ⟨c6_root_resolution.1 ["/gp".data],
   c6_root_resolution.2 (fun q => q == ("/goroot/src/pkg/sub/file.go".data))
     ("/goroot/src".data)
     ["/remote".data, "src".data, "pkg".data, "sub".data, "file.go".data] 2
     (by decide) (by decide) (by decide)
     (fun j hj1 hj2 => by
        have hj : j = 1 := by omega
        subst hj
        decide)⟩


/-! ### Stepping through a well-formed block -/

theorem trimLine_append_nl (x : LC) (h : x.getLast? ≠ some '\r') :
    trimLine (x ++ ['\n']) = some x := by
  unfold trimLine
  rw [if_neg ?h1, if_pos ?h2]
  · unfold dropLastN
    rw [show (x ++ ['\n']).length - 1 = x.length by simp]
    exact congrArg some (List.take_left x ['\n'])
  case h1 =>
    intro hc
    have hsuf : ['\r', '\n'] <:+ (x ++ ['\n']) := List.isSuffixOf_iff_suffix.1 hc
    obtain ⟨t, ht⟩ := hsuf
    have h2 : (t ++ ['\r']) ++ ['\n'] = x ++ ['\n'] := by simpa using ht
    have hx : t ++ ['\r'] = x := List.append_cancel_right h2
    rw [← hx] at h
    exact h (List.getLast?_concat t)
  case h2 =>
    exact List.isSuffixOf_iff_suffix.2 ⟨x, rfl⟩

theorem scanIndented_prefix (s : ScanState) (l core : LC) :
    scanIndented s l (s.indent ++ core) = scanTrimmed s l core := by
  by_cases hp : s.indent = []
  · rw [scanIndented_skip _ _ _ (by simp [hp]), hp, List.nil_append]
  · rw [scanIndented_strip _ _ _ (by simp [hp]) hp
      (List.isPrefixOf_iff_prefix.2 (List.prefix_append _ _)), List.drop_left]

/-- A block line: the recorded indentation, the line core, the terminator. -/
theorem scan_block (s : ScanState) (core : LC)
    (hcr : (s.indent ++ core).getLast? ≠ some '\r') :
    scan s ((s.indent ++ core) ++ ['\n'])
      = scanTrimmed s ((s.indent ++ core) ++ ['\n']) core := by
  rw [scan_terminated _ _ _ (trimLine_append_nl _ hcr), scanIndented_prefix]

theorem scan_empty_line (s : ScanState) : scan s ['\n'] = scanTrimmed s ['\n'] [] := by
  have h : trimLine ['\n'] = some [] := by decide
  rw [scan_terminated _ _ _ h, scanIndented_skip _ _ _ (by simp)]

theorem updateLast_append {α : Type} (f : α → α) (gs : List α) (g : α) :
    updateLast f (gs ++ [g]) = gs ++ [f g] := by
  induction gs with
  | nil => rfl
  | cons a gs ih =>
    cases gs with
    | nil => rfl
    | cons b gs' => simpa [updateLast] using ih

theorem parseFuncM_ne_nil {f : LC} {x : Call × Option ScanError}
    (h : parseFuncM f = some x) : f ≠ [] := by
  rintro rfl
  rw [show parseFuncM ([] : LC) = none from rfl] at h
  cases h

theorem parseFileM_ne_nil {l : LC} {x : Except ScanError (LC × Int)}
    (h : parseFileM l = some x) : l ≠ [] := by
  rintro rfl
  rw [show parseFileM ([] : LC) = none from rfl] at h
  cases h

theorem matchCreated_some_ne {t raw : LC} (h : matchCreated t = some raw) :
    raw ≠ [] := by
  unfold matchCreated at h
  split at h
  · split at h
    · next hcond =>
      injection h with h'
      rw [← h']
      exact hcond.1
    · cases h
  · cases h

/-- Per-state step facts about `scanTrimmed`. -/
theorem scanTrimmed_header (s : ScanState) (l t p idS stS : LC)
    (hs : s.state = .normal ∨ s.state = .betweenRoutine)
    (hh : matchRoutineHeader t = some (p, idS, stS))
    (hid : (goAtoi idS).2 = true) :
    scanTrimmed s l t
      = ({ s with
            goroutines := s.goroutines ++
              [headerGoroutine s.goroutines.isEmpty (goAtoi idS).1 stS],
            state := .gotRoutineHeader, indent := p }, [], none) := by
  have hbody : scanNormalBR s l t
      = ({ s with
            goroutines := s.goroutines ++
              [headerGoroutine s.goroutines.isEmpty (goAtoi idS).1 stS],
            state := .gotRoutineHeader, indent := p }, [], none) := by
    unfold scanNormalBR
    simp only [hh, hid]
    simp
  rcases hs with hs | hs
  · rw [scanTrimmed_normal _ _ _ hs, hbody]
  · rw [scanTrimmed_betweenRoutine _ _ _ hs, hbody]

theorem scanTrimmed_firstFunc (s : ScanState) (l f : LC) (c : Call)
    (e : Option ScanError) (hs : s.state = .gotRoutineHeader)
    (hun : reUnavailMatch f = false) (hf : parseFuncM f = some (c, e)) :
    scanTrimmed s l f
      = ({ s with
            goroutines := updateLast (appendCall c) s.goroutines,
            state := .gotFunc }, [], e) := by
  unfold scanTrimmed
  rw [hs]
  simp [hun, hf]

theorem scanTrimmed_fileFunc (s : ScanState) (l t pa : LC) (n : Int)
    (hs : s.state = .gotFunc) (hfile : parseFileM t = some (.ok (pa, n))) :
    scanTrimmed s l t
      = ({ s with
            goroutines := updateLast (setLastCallLoc pa n) s.goroutines,
            state := .gotFileFunc }, [], none) := by
  unfold scanTrimmed
  rw [hs]
  simp [hfile]

theorem scanTrimmed_funcAgain (s : ScanState) (l f : LC) (c : Call)
    (e : Option ScanError) (hs : s.state = .gotFileFunc)
    (hnc : matchCreated f = none) (hne : ¬ elided = f)
    (hf : parseFuncM f = some (c, e)) :
    scanTrimmed s l f
      = ({ s with
            goroutines := updateLast (appendCall c) s.goroutines,
            state := .gotFunc }, [], e) := by
  unfold scanTrimmed
  rw [hs]
  simp [hnc, hne, hf]

theorem scanTrimmed_marker (s : ScanState) (l : LC) (hs : s.state = .gotFileFunc) :
    scanTrimmed s l elided
      = ({ s with goroutines := updateLast setElided s.goroutines }, [], none) := by
  unfold scanTrimmed
  rw [hs]
  rw [show matchCreated elided = none from rfl]
  simp

theorem scanTrimmed_created (s : ScanState) (l cf raw : LC)
    (hs : s.state = .gotFileFunc) (hc : matchCreated cf = some raw) :
    scanTrimmed s l cf
      = ({ s with
            goroutines := updateLast (setCreatedByFunc raw) s.goroutines,
            state := .gotCreated }, [], none) := by
  unfold scanTrimmed
  rw [hs]
  simp [hc]

theorem scanTrimmed_createdFile (s : ScanState) (l t pa : LC) (n : Int)
    (hs : s.state = .gotCreated) (hfile : parseFileM t = some (.ok (pa, n))) :
    scanTrimmed s l t
      = ({ s with
            goroutines := updateLast (setCreatedByLoc pa n) s.goroutines,
            state := .gotFileCreated }, [], none) := by
  unfold scanTrimmed
  rw [hs]
  simp [hfile]

theorem scanTrimmed_emptyFileFunc (s : ScanState) (l : LC)
    (hs : s.state = .gotFileFunc) :
    scanTrimmed s l [] = ({ s with state := .betweenRoutine }, [], none) := by
  unfold scanTrimmed
  rw [hs]
  rw [show matchCreated [] = none from rfl, show parseFuncM ([] : LC) = none from rfl]
  simp [elided]

theorem scanTrimmed_emptyFileCreated (s : ScanState) (l : LC)
    (hs : s.state = .gotFileCreated) :
    scanTrimmed s l [] = ({ s with state := .betweenRoutine }, [], none) := by
  unfold scanTrimmed
  rw [hs]
  simp


/-- Sequencing a silent (no output, no error) scan step. -/
theorem runLines_seq (s s' : ScanState) (l : LC) (rest : List LC)
    (h1 : scan s l = (s', [], none)) (r : ScanState × LC × Option ScanError)
    (h2 : runLines s' rest = r) :
    runLines s (l :: rest) = r := by
  rw [runLines_cons, h1]
  simp only [h2, List.nil_append]

/-! ### Block items: a function/file pair or an elision-marker line -/

inductive BlockItem where
  | pair (f l : LC)
  | marker
deriving DecidableEq

/-- The lines a block item contributes, under indentation prefix `p`. -/
def itemLines (p : LC) : BlockItem → List LC
  | .pair f l => [(p ++ f) ++ ['\n'], (p ++ l) ++ ['\n']]
  | .marker => [(p ++ elided) ++ ['\n']]

/-- The `Call` recovered from a function/file line pair (`parseFunc`, then
`parseFile` on the same call). -/
def pairCall (f l : LC) : Option Call :=
  match parseFuncM f, parseFileM l with
  | some (c, none), some (.ok (pa, n)) => some { c with SrcPath := pa, Line := n }
  | _, _ => none

/-- Well-formedness of a block item: a pair's function line must not read as
a creation line or the elision marker, both lines must parse, and no core
ends in a stray carriage return (a CR would have been consumed by the
terminator trimming). -/
def ItemHyp : BlockItem → Prop
  | .pair f l => matchCreated f = none ∧ ¬ elided = f ∧ (pairCall f l).isSome
      ∧ f.getLast? ≠ some '\r' ∧ l.getLast? ≠ some '\r'
  | .marker => True

def itemCalls : List BlockItem → List Call
  | [] => []
  | .pair f l :: rest =>
    (match pairCall f l with | some c => [c] | none => []) ++ itemCalls rest
  | .marker :: rest => itemCalls rest

def hasMarker : List BlockItem → Bool
  | [] => false
  | .marker :: _ => true
  | .pair _ _ :: rest => hasMarker rest

theorem pairCall_inv {f l : LC} (h : (pairCall f l).isSome) :
    ∃ c0 pa n, parseFuncM f = some (c0, none) ∧ parseFileM l = some (.ok (pa, n)) ∧
      pairCall f l = some { c0 with SrcPath := pa, Line := n } := by
  unfold pairCall at h
  split at h
  · next c0 pa n hpf hpl =>
    exact ⟨c0, pa, n, hpf, hpl, by unfold pairCall; rw [hpf, hpl]⟩
  · simp at h

/-- One function/file pair advances `gotFileFunc → gotFunc → gotFileFunc`,
appending the pair's `Call` to the current goroutine. -/
theorem scan_pair (s : ScanState) (f l : LC) (c0 : Call) (pa : LC) (n : Int)
    (hs : s.state = .gotFileFunc)
    (hnc : matchCreated f = none) (hne : ¬ elided = f)
    (hf : parseFuncM f = some (c0, none)) (hl : parseFileM l = some (.ok (pa, n)))
    (hcrf : f.getLast? ≠ some '\r') (hcrl : l.getLast? ≠ some '\r') :
    scan s ((s.indent ++ f) ++ ['\n'])
      = ({ s with
            goroutines := updateLast (appendCall c0) s.goroutines,
            state := .gotFunc }, [], none)
  ∧ scan { s with
        goroutines := updateLast (appendCall c0) s.goroutines,
        state := MState.gotFunc } ((s.indent ++ l) ++ ['\n'])
      = ({ s with
            goroutines := updateLast (setLastCallLoc pa n)
              (updateLast (appendCall c0) s.goroutines),
            state := .gotFileFunc }, [], none) := by
  constructor
  · have hc : (s.indent ++ f).getLast? ≠ some '\r' := by
      rw [List.getLast?_append_of_ne_nil _ (parseFuncM_ne_nil hf)]
      exact hcrf
    exact (scan_block s f hc).trans (scanTrimmed_funcAgain s _ f c0 none hs hnc hne hf)
  · have hc : (({ s with
        goroutines := updateLast (appendCall c0) s.goroutines,
        state := MState.gotFunc } : ScanState).indent ++ l).getLast? ≠ some '\r' := by
      rw [List.getLast?_append_of_ne_nil _ (parseFileM_ne_nil hl)]
      exact hcrl
    exact (scan_block { s with
        goroutines := updateLast (appendCall c0) s.goroutines,
        state := MState.gotFunc } l hc).trans
      (scanTrimmed_fileFunc _ _ l pa n rfl hl)

/-- The items loop: from `gotFileFunc`, a sequence of pairs and markers
appends the pairs' calls in order and sets `Elided` iff a marker occurred,
ending back in `gotFileFunc` with no output and no error. -/
theorem runItems (p : LC) (items : List BlockItem) :
    ∀ (race : Bool) (gs : List Goroutine) (g : Goroutine) (races : List RaceOp),
    (∀ it ∈ items, ItemHyp it) →
    runLines ⟨race, gs ++ [g], .gotFileFunc, p, races⟩ (items.flatMap (itemLines p))
      = (⟨race, gs ++ [{ g with Stack := ⟨g.Stack.Calls ++ itemCalls items,
            g.Stack.Elided || hasMarker items⟩ }], .gotFileFunc, p, races⟩, [], none) := by
  induction items with
  | nil =>
    intro race gs g races _
    rw [List.flatMap_nil, show runLines ⟨race, gs ++ [g], .gotFileFunc, p, races⟩ []
      = (⟨race, gs ++ [g], .gotFileFunc, p, races⟩, [], none) from rfl]
    simp [itemCalls, hasMarker]
  | cons it rest ih =>
    intro race gs g races hhyp
    have hrest : ∀ x ∈ rest, ItemHyp x := fun x hx => hhyp x (List.mem_cons_of_mem _ hx)
    rw [List.flatMap_cons]
    cases it with
    | marker =>
      have hcr : ((⟨race, gs ++ [g], .gotFileFunc, p, races⟩ : ScanState).indent
          ++ elided).getLast? ≠ some '\r' := by
        rw [List.getLast?_append_of_ne_nil _ (by decide : elided ≠ ([] : LC))]
        decide
      have hstep : scan ⟨race, gs ++ [g], .gotFileFunc, p, races⟩ ((p ++ elided) ++ ['\n'])
          = (⟨race, gs ++ [setElided g], .gotFileFunc, p, races⟩, [], none) := by
        rw [show ((p ++ elided) ++ ['\n'])
            = (((⟨race, gs ++ [g], .gotFileFunc, p, races⟩ : ScanState)).indent
                ++ elided) ++ ['\n'] from rfl]
        rw [scan_block _ elided hcr, scanTrimmed_marker _ _ rfl]
        simp [updateLast_append]
      have h2 := ih race gs (setElided g) races hrest
      rw [show itemLines p BlockItem.marker = [(p ++ elided) ++ ['\n']] from rfl,
        List.singleton_append]
      refine runLines_seq _ _ _ _ hstep _ ?_
      rw [h2]
      simp [setElided, itemCalls, hasMarker]
    | pair f l =>
      rcases hhyp (.pair f l) (by simp) with ⟨hnc, hne, hpc, hcrf, hcrl⟩
      rcases pairCall_inv hpc with ⟨c0, pa, n, hf, hl, hpcall⟩
      rcases scan_pair ⟨race, gs ++ [g], .gotFileFunc, p, races⟩ f l c0 pa n rfl
        hnc hne hf hl hcrf hcrl with ⟨hstep1, hstep2⟩
      have hstep1' : scan ⟨race, gs ++ [g], .gotFileFunc, p, races⟩ ((p ++ f) ++ ['\n'])
          = (⟨race, gs ++ [appendCall c0 g], .gotFunc, p, races⟩, [], none) := by
        rw [show ((p ++ f) ++ ['\n'])
            = (((⟨race, gs ++ [g], .gotFileFunc, p, races⟩ : ScanState)).indent
                ++ f) ++ ['\n'] from rfl]
        rw [hstep1]
        simp [updateLast_append]
      have hstep2' : scan ⟨race, gs ++ [appendCall c0 g], .gotFunc, p, races⟩
            ((p ++ l) ++ ['\n'])
          = (⟨race, gs ++ [setLastCallLoc pa n (appendCall c0 g)], .gotFileFunc, p,
              races⟩, [], none) := by
        have hcv : (⟨race, gs ++ [appendCall c0 g], .gotFunc, p, races⟩ : ScanState)
            = { (⟨race, gs ++ [g], .gotFileFunc, p, races⟩ : ScanState) with
                goroutines := updateLast (appendCall c0)
                  ((⟨race, gs ++ [g], .gotFileFunc, p, races⟩ : ScanState)).goroutines,
                state := MState.gotFunc } := by
          simp [updateLast_append]
        rw [hcv, hstep2]
        simp [updateLast_append]
      have h2 := ih race gs (setLastCallLoc pa n (appendCall c0 g)) races hrest
      rw [show itemLines p (BlockItem.pair f l)
          = [(p ++ f) ++ ['\n'], (p ++ l) ++ ['\n']] from rfl]
      simp only [List.cons_append, List.nil_append]
      refine runLines_seq _ _ _ _ hstep1' _ (runLines_seq _ _ _ _ hstep2' _ ?_)
      rw [h2]
      simp only [itemCalls, hasMarker, hpcall, setLastCallLoc, appendCall]
      simp [updateLast_append, List.append_assoc]


/-! ### A complete well-formed block -/

/-- Lines contributed by the optional `created by` tail. -/
def crLines (p : LC) : Option (LC × LC) → List LC
  | none => []
  | some (cf, fl) => [(p ++ cf) ++ ['\n'], (p ++ fl) ++ ['\n']]

/-- The `CreatedBy` call recovered from a creation line and its file line. -/
def createdCall (cf fl : LC) : Call :=
  match matchCreated cf, parseFileM fl with
  | some raw, some (.ok (pa, n)) => { Func := ⟨raw⟩, SrcPath := pa, Line := n }
  | _, _ => {}

/-- Well-formedness of the optional creation tail. -/
def CrHyp : Option (LC × LC) → Prop
  | none => True
  | some (cf, fl) => (matchCreated cf).isSome
      ∧ (∃ pa n, parseFileM fl = some (.ok (pa, n)))
      ∧ cf.getLast? ≠ some '\r' ∧ fl.getLast? ≠ some '\r'

/-- The `CreatedBy` value of a block with optional creation tail. -/
def crCall : Option (LC × LC) → Call
  | none => {}
  | some (cf, fl) => createdCall cf fl

/-- The goroutine a well-formed block parses to. -/
def blockGoroutine (idS stS f1 l1 : LC) (items : List BlockItem)
    (cr : Option (LC × LC)) : Goroutine :=
  { headerGoroutine true (goAtoi idS).1 stS with
    Stack := ⟨(pairCall f1 l1).toList ++ itemCalls items, hasMarker items⟩,
    CreatedBy := crCall cr }

theorem matchCreated_ne_nil {t raw : LC} (h : matchCreated t = some raw) : t ≠ [] := by
  rintro rfl
  rw [show matchCreated ([] : LC) = none from rfl] at h
  cases h

theorem headerGoroutine_Stack (a : Bool) (b : Int) (c : LC) :
    (headerGoroutine a b c).Stack = {} := by
  simp [headerGoroutine]

theorem headerGoroutine_CreatedBy (a : Bool) (b : Int) (c : LC) :
    (headerGoroutine a b c).CreatedBy = {} := by
  simp [headerGoroutine]

/-- A whole well-formed block — header, first function/file pair, further
pairs possibly interleaved with elision markers, an optional creation tail,
and the terminating empty line — parses to exactly one goroutine, with no
passthrough output and no error. -/
theorem runBlock (hdrCore p idS stS f1 l1 : LC) (items : List BlockItem)
    (cr : Option (LC × LC))
    (hh : matchRoutineHeader hdrCore = some (p, idS, stS))
    (hid : (goAtoi idS).2 = true)
    (hcrh : hdrCore.getLast? ≠ some '\r')
    (hun1 : reUnavailMatch f1 = false)
    (hpc1 : (pairCall f1 l1).isSome)
    (hcrf1 : f1.getLast? ≠ some '\r') (hcrl1 : l1.getLast? ≠ some '\r')
    (hitems : ∀ it ∈ items, ItemHyp it)
    (hcre : CrHyp cr) :
    parseDumpLines ((hdrCore ++ ['\n']) :: ((p ++ f1) ++ ['\n']) :: ((p ++ l1) ++ ['\n'])
        :: (items.flatMap (itemLines p) ++ crLines p cr ++ [['\n']]))
      = ([blockGoroutine idS stS f1 l1 items cr], [], none) := by
  rcases pairCall_inv hpc1 with ⟨c0, pa, n, hf1, hl1, hpcall1⟩
  obtain ⟨g0, hg0⟩ : ∃ g0, g0 = headerGoroutine true (goAtoi idS).1 stS := ⟨_, rfl⟩
  obtain ⟨g1, hg1⟩ : ∃ g1, g1 = setLastCallLoc pa n (appendCall c0 g0) := ⟨_, rfl⟩
  have hstep1 : scan ⟨false, [], .normal, [], []⟩ (hdrCore ++ ['\n'])
      = (⟨false, [g0], .gotRoutineHeader, p, []⟩, [], none) := by
    rw [show (hdrCore ++ ['\n'])
        = (((⟨false, [], .normal, [], []⟩ : ScanState)).indent ++ hdrCore) ++ ['\n']
        from rfl]
    rw [scan_block (⟨false, [], .normal, [], []⟩ : ScanState) hdrCore (by exact hcrh),
      scanTrimmed_header _ _ hdrCore p idS stS (Or.inl rfl) hh hid]
    simp [hg0]
  have hstep2 : scan ⟨false, [g0], .gotRoutineHeader, p, []⟩ ((p ++ f1) ++ ['\n'])
      = (⟨false, [appendCall c0 g0], .gotFunc, p, []⟩, [], none) := by
    have hc : ((⟨false, [g0], .gotRoutineHeader, p, []⟩ : ScanState).indent
        ++ f1).getLast? ≠ some '\r' := by
      rw [List.getLast?_append_of_ne_nil _ (parseFuncM_ne_nil hf1)]
      exact hcrf1
    rw [show ((p ++ f1) ++ ['\n'])
        = (((⟨false, [g0], .gotRoutineHeader, p, []⟩ : ScanState)).indent ++ f1)
          ++ ['\n'] from rfl]
    rw [scan_block _ f1 hc, scanTrimmed_firstFunc _ _ f1 c0 none rfl hun1 hf1]
    rfl
  have hstep3 : scan ⟨false, [appendCall c0 g0], .gotFunc, p, []⟩ ((p ++ l1) ++ ['\n'])
      = (⟨false, [g1], .gotFileFunc, p, []⟩, [], none) := by
    have hc : ((⟨false, [appendCall c0 g0], .gotFunc, p, []⟩ : ScanState).indent
        ++ l1).getLast? ≠ some '\r' := by
      rw [List.getLast?_append_of_ne_nil _ (parseFileM_ne_nil hl1)]
      exact hcrl1
    rw [show ((p ++ l1) ++ ['\n'])
        = (((⟨false, [appendCall c0 g0], .gotFunc, p, []⟩ : ScanState)).indent ++ l1)
          ++ ['\n'] from rfl]
    rw [scan_block _ l1 hc, scanTrimmed_fileFunc _ _ l1 pa n rfl hl1]
    rw [hg1]
    rfl
  have hCB1 : g1.CreatedBy = ({} : Call) := by
    rw [hg1]
    unfold setLastCallLoc appendCall
    simp [hg0, headerGoroutine_CreatedBy]
  obtain ⟨g2, hg2⟩ : ∃ g2, g2 = ({ g1 with Stack := ⟨g1.Stack.Calls ++ itemCalls items,
    g1.Stack.Elided || hasMarker items⟩ } : Goroutine) := ⟨_, rfl⟩
  have hCB2 : g2.CreatedBy = ({} : Call) := by
    rw [hg2]
    exact hCB1
  have hloop : runLines ⟨false, [g1], .gotFileFunc, p, []⟩ (items.flatMap (itemLines p))
      = (⟨false, [g2], .gotFileFunc, p, []⟩, [], none) := by
    have h := runItems p items false [] g1 [] hitems
    rw [hg2]
    simpa using h
  have htail : runLines ⟨false, [g2], .gotFileFunc, p, []⟩ (crLines p cr ++ [['\n']])
      = (⟨false, [{ g2 with CreatedBy := crCall cr }], .betweenRoutine, p, []⟩,
         [], none) := by
    cases cr with
    | none =>
      have hstepE : scan ⟨false, [g2], .gotFileFunc, p, []⟩ ['\n']
          = (⟨false, [g2], .betweenRoutine, p, []⟩, [], none) := by
        rw [scan_empty_line, scanTrimmed_emptyFileFunc _ _ rfl]
      rw [show crLines p none = [] from rfl, List.nil_append]
      refine runLines_seq _ _ _ _ hstepE _ ?_
      rw [show runLines ⟨false, [g2], .betweenRoutine, p, []⟩ []
        = ((⟨false, [g2], .betweenRoutine, p, []⟩ : ScanState), [], none) from rfl]
      rw [show crCall none = ({} : Call) from rfl, ← hCB2]
    | some pr =>
      rcases pr with ⟨cf, fl⟩
      rcases hcre with ⟨hmc, ⟨cpa, cn, hpf⟩, hcrcf, hcrfl⟩
      rcases Option.isSome_iff_exists.1 hmc with ⟨raw, hraw⟩
      have hstepC1 : scan ⟨false, [g2], .gotFileFunc, p, []⟩ ((p ++ cf) ++ ['\n'])
          = (⟨false, [setCreatedByFunc raw g2], .gotCreated, p, []⟩, [], none) := by
        have hc : ((⟨false, [g2], .gotFileFunc, p, []⟩ : ScanState).indent
            ++ cf).getLast? ≠ some '\r' := by
          rw [List.getLast?_append_of_ne_nil _ (matchCreated_ne_nil hraw)]
          exact hcrcf
        rw [show ((p ++ cf) ++ ['\n'])
            = (((⟨false, [g2], .gotFileFunc, p, []⟩ : ScanState)).indent ++ cf)
              ++ ['\n'] from rfl]
        rw [scan_block _ cf hc, scanTrimmed_created _ _ cf raw rfl hraw]
        rfl
      have hstepC2 : scan ⟨false, [setCreatedByFunc raw g2], .gotCreated, p, []⟩
            ((p ++ fl) ++ ['\n'])
          = (⟨false, [setCreatedByLoc cpa cn (setCreatedByFunc raw g2)],
              .gotFileCreated, p, []⟩, [], none) := by
        have hc : ((⟨false, [setCreatedByFunc raw g2], .gotCreated, p, []⟩ :
            ScanState).indent ++ fl).getLast? ≠ some '\r' := by
          rw [List.getLast?_append_of_ne_nil _ (parseFileM_ne_nil hpf)]
          exact hcrfl
        rw [show ((p ++ fl) ++ ['\n'])
            = (((⟨false, [setCreatedByFunc raw g2], .gotCreated, p, []⟩ :
                ScanState)).indent ++ fl) ++ ['\n'] from rfl]
        rw [scan_block _ fl hc, scanTrimmed_createdFile _ _ fl cpa cn rfl hpf]
        rfl
      have hstepE : scan ⟨false, [setCreatedByLoc cpa cn (setCreatedByFunc raw g2)],
            .gotFileCreated, p, []⟩ ['\n']
          = (⟨false, [setCreatedByLoc cpa cn (setCreatedByFunc raw g2)],
              .betweenRoutine, p, []⟩, [], none) := by
        rw [scan_empty_line, scanTrimmed_emptyFileCreated _ _ rfl]
      rw [show crLines p (some (cf, fl))
          = [(p ++ cf) ++ ['\n'], (p ++ fl) ++ ['\n']] from rfl]
      simp only [List.cons_append, List.nil_append]
      refine runLines_seq _ _ _ _ hstepC1 _ (runLines_seq _ _ _ _ hstepC2 _
        (runLines_seq _ _ _ _ hstepE _ ?_))
      rw [show runLines ⟨false, [setCreatedByLoc cpa cn (setCreatedByFunc raw g2)],
          .betweenRoutine, p, []⟩ [] = (⟨false, [setCreatedByLoc cpa cn
            (setCreatedByFunc raw g2)], .betweenRoutine, p, []⟩, [], none) from rfl]
      have hcc : setCreatedByLoc cpa cn (setCreatedByFunc raw g2)
          = { g2 with CreatedBy := crCall (some (cf, fl)) } := by
        simp only [setCreatedByLoc, setCreatedByFunc, crCall, createdCall, hraw, hpf]
        simp [hCB2]
      rw [hcc]
  have hfull : runLines ⟨false, [], .normal, [], []⟩
      ((hdrCore ++ ['\n']) :: ((p ++ f1) ++ ['\n']) :: ((p ++ l1) ++ ['\n'])
        :: (items.flatMap (itemLines p) ++ crLines p cr ++ [['\n']]))
      = (⟨false, [{ g2 with CreatedBy := crCall cr }], .betweenRoutine, p, []⟩,
         [], none) := by
    refine runLines_seq _ _ _ _ hstep1 _ (runLines_seq _ _ _ _ hstep2 _
      (runLines_seq _ _ _ _ hstep3 _ ?_))
    rw [List.append_assoc]
    rw [runLines_append _ _ _ (by rw [hloop])]
    rw [hloop]
    simp only
    rw [htail]
    simp
  have hfinal : ({ g2 with CreatedBy := crCall cr } : Goroutine)
      = blockGoroutine idS stS f1 l1 items cr := by
    rw [hg2, hg1, hg0]
    unfold blockGoroutine setLastCallLoc appendCall
    rw [hpcall1]
    simp [headerGoroutine_Stack, updateLast_append]
    rfl
  unfold parseDumpLines
  rw [hfull, hfinal]


theorem itemCalls_map_pairs (L : List (LC × LC)) :
    itemCalls (L.map (fun pr => BlockItem.pair pr.1 pr.2))
      = L.filterMap (fun pr => pairCall pr.1 pr.2) := by
  induction L with
  | nil => rfl
  | cons a L ih =>
    cases hp : pairCall a.1 a.2 <;> simp [itemCalls, List.filterMap_cons, hp, ih]

theorem hasMarker_map_pairs (L : List (LC × LC)) :
    hasMarker (L.map (fun pr => BlockItem.pair pr.1 pr.2)) = false := by
  induction L with
  | nil => rfl
  | cons a L ih => simpa [hasMarker] using ih

theorem filterMap_pairCall_length {L : List (LC × LC)}
    (h : ∀ pr ∈ L, (pairCall pr.1 pr.2).isSome) :
    (L.filterMap (fun pr => pairCall pr.1 pr.2)).length = L.length := by
  induction L with
  | nil => rfl
  | cons a L ih =>
    rcases Option.isSome_iff_exists.1 (h a (by simp)) with ⟨c, hc⟩
    simp [List.filterMap_cons, hc, ih (fun pr hpr => h pr (List.mem_cons_of_mem _ hpr))]

theorem headerGoroutine_ID (a : Bool) (b : Int) (c : LC) :
    (headerGoroutine a b c).ID = b := by
  simp [headerGoroutine]

theorem headerGoroutine_First (a : Bool) (b : Int) (c : LC) :
    (headerGoroutine a b c).First = a := by
  simp [headerGoroutine]

/-- C2: a well-formed single block — header, one or more function-call/file
pairs, optional `created by` + file pair, terminated by an empty line —
parses to exactly one goroutine whose `Stack.Calls` has exactly one `Call`
per pair, in input order, and whose `CreatedBy` is populated iff the
creation lines were present. -/
theorem c2_wellformed_block (hdrCore p idS stS f1 l1 : LC)
    (morePairs : List (LC × LC)) (cr : Option (LC × LC))
    (hh : matchRoutineHeader hdrCore = some (p, idS, stS))
    (hid : (goAtoi idS).2 = true)
    (hcrh : hdrCore.getLast? ≠ some '\r')
    (hun1 : reUnavailMatch f1 = false)
    (hpc1 : (pairCall f1 l1).isSome)
    (hcrf1 : f1.getLast? ≠ some '\r') (hcrl1 : l1.getLast? ≠ some '\r')
    (hmore : ∀ pr ∈ morePairs, ItemHyp (.pair pr.1 pr.2))
    (hcre : CrHyp cr) :
    parseDumpLines ((hdrCore ++ ['\n']) :: ((p ++ f1) ++ ['\n']) :: ((p ++ l1) ++ ['\n'])
        :: ((morePairs.map (fun pr => BlockItem.pair pr.1 pr.2)).flatMap (itemLines p)
            ++ crLines p cr ++ [['\n']]))
      = ([blockGoroutine idS stS f1 l1
            (morePairs.map (fun pr => BlockItem.pair pr.1 pr.2)) cr], [], none)
  ∧ (blockGoroutine idS stS f1 l1
        (morePairs.map (fun pr => BlockItem.pair pr.1 pr.2)) cr).Stack.Calls
      = (pairCall f1 l1).toList ++ morePairs.filterMap (fun pr => pairCall pr.1 pr.2)
  ∧ (blockGoroutine idS stS f1 l1
        (morePairs.map (fun pr => BlockItem.pair pr.1 pr.2)) cr).Stack.Calls.length
      = morePairs.length + 1
  ∧ (blockGoroutine idS stS f1 l1
        (morePairs.map (fun pr => BlockItem.pair pr.1 pr.2)) cr).Stack.Elided = false
  ∧ (blockGoroutine idS stS f1 l1
        (morePairs.map (fun pr => BlockItem.pair pr.1 pr.2)) cr).ID = (goAtoi idS).1
  ∧ (blockGoroutine idS stS f1 l1
        (morePairs.map (fun pr => BlockItem.pair pr.1 pr.2)) cr).First = true
  ∧ (blockGoroutine idS stS f1 l1
        (morePairs.map (fun pr => BlockItem.pair pr.1 pr.2)) cr).CreatedBy = crCall cr
  ∧ (cr = none →
      (blockGoroutine idS stS f1 l1
        (morePairs.map (fun pr => BlockItem.pair pr.1 pr.2)) cr).CreatedBy = ({} : Call))
  ∧ (∀ cf fl, cr = some (cf, fl) →
      (blockGoroutine idS stS f1 l1
        (morePairs.map (fun pr => BlockItem.pair pr.1 pr.2)) cr).CreatedBy.Func.Raw
        ≠ []) := by
  have hitems : ∀ it ∈ morePairs.map (fun pr => BlockItem.pair pr.1 pr.2), ItemHyp it := by
    intro it hit
    rcases List.mem_map.1 hit with ⟨pr, hpr, rfl⟩
    exact hmore pr hpr
  refine ⟨runBlock hdrCore p idS stS f1 l1 _ cr hh hid hcrh hun1 hpc1 hcrf1 hcrl1
    hitems hcre, ?_, ?_, ?_, ?_, ?_, ?_, ?_, ?_⟩
  · simp [blockGoroutine, itemCalls_map_pairs]
  · rcases Option.isSome_iff_exists.1 hpc1 with ⟨c1, hc1⟩
    simp [blockGoroutine, itemCalls_map_pairs, hc1, filterMap_pairCall_length
      (fun pr hpr => (hmore pr hpr).2.2.1), Nat.add_comm]
  · simp [blockGoroutine, hasMarker_map_pairs]
  · simp [blockGoroutine, headerGoroutine_ID]
  · simp [blockGoroutine, headerGoroutine_First]
  · rfl
  · intro h
    subst h
    rfl
  · intro cf fl h
    subst h
    rcases hcre with ⟨hmc, ⟨cpa, cn, hpf⟩, _, _⟩
    rcases Option.isSome_iff_exists.1 hmc with ⟨raw, hraw⟩
    have : (blockGoroutine idS stS f1 l1
        (morePairs.map (fun pr => BlockItem.pair pr.1 pr.2))
        (some (cf, fl))).CreatedBy.Func.Raw = raw := by
      simp [blockGoroutine, crCall, createdCall, hraw, hpf]
    rw [this]
    exact matchCreated_some_ne hraw

/-- Witness for C2: a two-pair block with a creation tail. -/
theorem c2_witness :
    parseDumpLines (("goroutine 7 [running]:".data ++ ['\n'])
        :: (([] ++ "main.f(1)".data) ++ ['\n'])
        :: (([] ++ "\t/a/b.go:10 +0x35".data) ++ ['\n'])
        :: (([("main.g()".data, "\t/a/c.go:20".data)].map
              (fun pr => BlockItem.pair pr.1 pr.2)).flatMap (itemLines [])
            ++ crLines [] (some ("created by main.h".data, "\t/a/d.go:30".data))
            ++ [['\n']]))
      = ([blockGoroutine "7".data "running".data "main.f(1)".data
            ("\t/a/b.go:10 +0x35".data)
            ([("main.g()".data, "\t/a/c.go:20".data)].map
              (fun pr => BlockItem.pair pr.1 pr.2))
            (some ("created by main.h".data, "\t/a/d.go:30".data))], [], none)
  ∧ (blockGoroutine "7".data "running".data "main.f(1)".data
        ("\t/a/b.go:10 +0x35".data)
        ([("main.g()".data, "\t/a/c.go:20".data)].map
          (fun pr => BlockItem.pair pr.1 pr.2))
        (some ("created by main.h".data, "\t/a/d.go:30".data))).Stack.Calls.length
      = 2 := by
  have h := c2_wellformed_block ("goroutine 7 [running]:".data) [] ("7".data)
    ("running".data) ("main.f(1)".data) ("\t/a/b.go:10 +0x35".data)
    [("main.g()".data, "\t/a/c.go:20".data)]
    (some ("created by main.h".data, "\t/a/d.go:30".data))
    (by decide) (by decide) (by decide) (by decide) (by decide) (by decide)
    (by decide)
    (by
      intro pr hpr
      fin_cases hpr
      exact ⟨by decide, by decide, by decide, by decide, by decide⟩)
    ⟨by decide, ⟨"/a/d.go".data, 30, by rfl⟩, by decide, by decide⟩
  exact ⟨h.1, h.2.2.1⟩

/-- C3 (amended): `Stack.Elided` is true iff the elision-marker line was
recognized after some file-location line of the block; function-call lines
may follow the marker and are still appended as calls of the same
goroutine. -/
theorem c3_elided_flag (hdrCore p idS stS f1 l1 : LC) (items : List BlockItem)
    (hh : matchRoutineHeader hdrCore = some (p, idS, stS))
    (hid : (goAtoi idS).2 = true)
    (hcrh : hdrCore.getLast? ≠ some '\r')
    (hun1 : reUnavailMatch f1 = false)
    (hpc1 : (pairCall f1 l1).isSome)
    (hcrf1 : f1.getLast? ≠ some '\r') (hcrl1 : l1.getLast? ≠ some '\r')
    (hitems : ∀ it ∈ items, ItemHyp it) :
    parseDumpLines ((hdrCore ++ ['\n']) :: ((p ++ f1) ++ ['\n']) :: ((p ++ l1) ++ ['\n'])
        :: (items.flatMap (itemLines p) ++ [['\n']]))
      = ([blockGoroutine idS stS f1 l1 items none], [], none)
  ∧ (blockGoroutine idS stS f1 l1 items none).Stack.Elided = hasMarker items
  ∧ (blockGoroutine idS stS f1 l1 items none).Stack.Calls
      = (pairCall f1 l1).toList ++ itemCalls items := by
  refine ⟨?_, rfl, rfl⟩
  have h := runBlock hdrCore p idS stS f1 l1 items none hh hid hcrh hun1 hpc1
    hcrf1 hcrl1 hitems trivial
  rw [show items.flatMap (itemLines p) ++ crLines p none ++ [['\n']]
      = items.flatMap (itemLines p) ++ [['\n']] by simp [crLines]] at h
  exact h

/-- Witness for C3: a marker followed by a further function/file pair;
`Elided` is true and both calls are kept. -/
theorem c3_witness :
    parseDumpLines (("goroutine 1 [running]:".data ++ ['\n'])
        :: (([] ++ "main.f()".data) ++ ['\n'])
        :: (([] ++ "\t/a/b.go:10".data) ++ ['\n'])
        :: ([BlockItem.marker, BlockItem.pair ("main.h()".data) ("\t/a/c.go:20".data)].flatMap
              (itemLines []) ++ [['\n']]))
      = ([blockGoroutine "1".data "running".data "main.f()".data ("\t/a/b.go:10".data)
            [BlockItem.marker, BlockItem.pair ("main.h()".data) ("\t/a/c.go:20".data)]
            none], [], none)
  ∧ (blockGoroutine "1".data "running".data "main.f()".data ("\t/a/b.go:10".data)
        [BlockItem.marker, BlockItem.pair ("main.h()".data) ("\t/a/c.go:20".data)]
        none).Stack.Elided
      = hasMarker [BlockItem.marker,
          BlockItem.pair ("main.h()".data) ("\t/a/c.go:20".data)] := by
  have h := c3_elided_flag ("goroutine 1 [running]:".data) [] ("1".data)
    ("running".data) ("main.f()".data) ("\t/a/b.go:10".data)
    [BlockItem.marker, BlockItem.pair ("main.h()".data) ("\t/a/c.go:20".data)]
    (by decide) (by decide) (by decide) (by decide) (by decide) (by decide)
    (by decide)
    (by
      intro it hit
      fin_cases hit
      · exact trivial
      · exact ⟨by decide, by decide, by decide, by decide, by decide⟩)
  exact ⟨h.1, h.2.1⟩


/-! ### C7: shape of the recovered goroutine list -/

/-- The synthetic `Call` installed by `setUnavailStack` for a
`stack unavailable` block. -/
def unavailCall : Call := { SrcPath := ("<unavailable>".data) }

/-- Every call of the goroutine carries a non-empty raw function name. -/
def allRaw (g : Goroutine) : Prop := ∀ c ∈ g.Stack.Calls, c.Func.Raw ≠ []

/-- A fully-formed goroutine: either exactly the one synthetic unavailable
call, or a non-empty stack of real calls. -/
def goodGor (g : Goroutine) : Prop :=
  g.Stack.Calls = [unavailCall] ∨ (g.Stack.Calls ≠ [] ∧ allRaw g)

/-- What each machine state guarantees about the goroutine currently under
construction (the last of the list); race states carry `False` because race
detection is disabled. -/
def lastCond : MState → Goroutine → Prop
  | .normal, g => goodGor g
  | .betweenRoutine, g => goodGor g
  | .gotRoutineHeader, g => g.Stack.Calls = []
  | .gotFunc, g => g.Stack.Calls ≠ [] ∧ allRaw g
  | .gotFileFunc, g => g.Stack.Calls ≠ [] ∧ allRaw g
  | .gotCreated, g => goodGor g
  | .gotFileCreated, g => goodGor g
  | .gotUnavail, g => g.Stack.Calls = [unavailCall]
  | _, _ => False

/-- Invariant tying the goroutine list to the machine state: all finished
goroutines are fully formed, the current one satisfies the state's
condition, and an empty list occurs only outside a block. -/
def LInv : List Goroutine → MState → Prop
  | [], st => st = .normal ∨ st = .betweenRoutine
  | [g], st => lastCond st g
  | g :: gs, st => goodGor g ∧ LInv gs st

/-- Shape guaranteed for the returned list: every goroutine is fully
formed, except that the final one may also have been left without calls. -/
def GoodList : List Goroutine → Prop
  | [] => True
  | [g] => goodGor g ∨ g.Stack.Calls = []
  | g :: gs => goodGor g ∧ GoodList gs

def SInv (s : ScanState) : Prop :=
  s.raceDetectionEnabled = false ∧ LInv s.goroutines s.state

theorem LInv_cons_cons (g : Goroutine) (gs : List Goroutine) (st : MState)
    (h : gs ≠ []) : LInv (g :: gs) st = (goodGor g ∧ LInv gs st) := by
  cases gs with
  | nil => exact absurd rfl h
  | cons b gs2 => rfl

theorem GoodList_cons_cons (g : Goroutine) (gs : List Goroutine)
    (h : gs ≠ []) : GoodList (g :: gs) = (goodGor g ∧ GoodList gs) := by
  cases gs with
  | nil => exact absurd rfl h
  | cons b gs2 => rfl

theorem lastCond_weak (st : MState) (g : Goroutine) (h : lastCond st g) :
    goodGor g ∨ g.Stack.Calls = [] := by
  cases st with
  | normal => exact Or.inl h
  | betweenRoutine => exact Or.inl h
  | gotRoutineHeader => exact Or.inr h
  | gotFunc => exact Or.inl (Or.inr h)
  | gotCreated => exact Or.inl h
  | gotFileFunc => exact Or.inl (Or.inr h)
  | gotFileCreated => exact Or.inl h
  | gotUnavail => exact Or.inl (Or.inl h)
  | gotRaceHeader1 => exact h.elim
  | gotRaceHeader => exact h.elim
  | gotRaceOperationHeader => exact h.elim
  | gotRaceOperationFunc => exact h.elim
  | gotRaceOperationFile => exact h.elim
  | gotRaceGoroutineHeader => exact h.elim
  | gotRaceGoroutineFunc => exact h.elim
  | gotRaceGoroutineFile => exact h.elim
  | betweenRaces => exact h.elim

theorem LInv_GoodList {gs : List Goroutine} {st : MState} (h : LInv gs st) :
    GoodList gs := by
  induction gs with
  | nil => trivial
  | cons a gs ih =>
    cases gs with
    | nil => exact lastCond_weak st a h
    | cons b gs2 => exact ⟨h.1, ih h.2⟩

theorem LInv_false {gs : List Goroutine} {st : MState} (h : LInv gs st)
    (h1 : ∀ g : Goroutine, ¬ lastCond st g)
    (h2 : ¬(st = .normal ∨ st = .betweenRoutine)) : False := by
  induction gs with
  | nil => exact h2 h
  | cons a gs ih =>
    cases gs with
    | nil => exact h1 a h
    | cons b gs2 => exact ih h.2

theorem LInv_snoc {gs : List Goroutine} {st : MState} (st' : MState)
    (g : Goroutine) (h : LInv gs st)
    (hw : ∀ g', lastCond st g' → goodGor g')
    (hg : lastCond st' g) : LInv (gs ++ [g]) st' := by
  induction gs with
  | nil => exact hg
  | cons a gs ih =>
    cases gs with
    | nil => exact ⟨hw a h, hg⟩
    | cons b gs2 => exact ⟨h.1, ih h.2⟩

theorem updateLast_ne_nil {α : Type} (f : α → α) {l : List α} (h : l ≠ []) :
    updateLast f l ≠ [] := by
  cases l with
  | nil => exact absurd rfl h
  | cons a t =>
    cases t with
    | nil => simp [updateLast]
    | cons b t2 => simp [updateLast]

theorem updateLast_forall {α : Type} (P : α → Prop) (f : α → α)
    (hf : ∀ x, P x → P (f x)) (l : List α) (h : ∀ x ∈ l, P x) :
    ∀ x ∈ updateLast f l, P x := by
  induction l with
  | nil => exact h
  | cons a l ih =>
    cases l with
    | nil =>
      intro x hx
      have hx' : x ∈ [f a] := hx
      rcases List.mem_singleton.1 hx' with rfl
      exact hf a (h a (by simp))
    | cons b l2 =>
      intro x hx
      have hx' : x ∈ a :: updateLast f (b :: l2) := hx
      rcases List.mem_cons.1 hx' with rfl | h2
      · exact h _ (by simp)
      · exact ih (fun y hy => h y (List.mem_cons_of_mem a hy)) x h2

theorem LInv_update {gs : List Goroutine} {st : MState} (st' : MState)
    (f : Goroutine → Goroutine) (h : LInv gs st)
    (hf : ∀ g, lastCond st g → lastCond st' (f g))
    (h2 : ¬(st = .normal ∨ st = .betweenRoutine)) :
    LInv (updateLast f gs) st' := by
  induction gs with
  | nil => exact absurd h h2
  | cons a gs ih =>
    cases gs with
    | nil => exact hf a h
    | cons b gs2 =>
      rw [show updateLast f (a :: b :: gs2) = a :: updateLast f (b :: gs2) from rfl,
        LInv_cons_cons _ _ _ (updateLast_ne_nil f (by simp))]
      exact ⟨h.1, ih h.2⟩

theorem LInv_retarget {gs : List Goroutine} {st : MState} (st' : MState)
    (h : LInv gs st) (hf : ∀ g, lastCond st g → lastCond st' g)
    (h2 : ¬(st = .normal ∨ st = .betweenRoutine)) : LInv gs st' := by
  induction gs with
  | nil => exact absurd h h2
  | cons a gs ih =>
    cases gs with
    | nil => exact hf a h
    | cons b gs2 => exact ⟨h.1, ih h.2⟩

theorem LInv_nbr {gs : List Goroutine} {st : MState} (h : LInv gs st)
    (hst : st = .normal ∨ st = .betweenRoutine) (st' : MState)
    (hst' : st' = .normal ∨ st' = .betweenRoutine) : LInv gs st' := by
  induction gs with
  | nil => exact hst'
  | cons a gs ih =>
    cases gs with
    | nil => rcases hst with rfl | rfl <;> rcases hst' with rfl | rfl <;> exact h
    | cons b gs2 => exact ⟨h.1, ih h.2⟩

theorem matchFunc_name_ne {t n a : LC} (h : matchFunc t = some (n, a)) :
    n ≠ [] := by
  unfold matchFunc at h
  split at h
  · exact Option.noConfusion h
  · split at h
    · rename_i hlast
      split at h
      · rename_i j hj
        split at h
        · rename_i h1j
          injection h with h'
          have hn : t.take j = n := congrArg Prod.fst h'
          have ht : t ≠ [] := by
            intro h0
            rw [h0] at hlast
            exact Option.noConfusion hlast
          rw [← hn]
          intro h0
          have hlen : (t.take j).length = 0 := by rw [h0]; rfl
          rw [List.length_take] at hlen
          have htl : 0 < t.length := List.length_pos.2 ht
          have hpos : 0 < min j t.length := lt_min_iff.2 ⟨h1j, htl⟩
          omega
        · exact Option.noConfusion h
      · exact Option.noConfusion h
    · exact Option.noConfusion h

theorem parseFuncM_raw {t : LC} {c : Call} {e : Option ScanError}
    (h : parseFuncM t = some (c, e)) : c.Func.Raw ≠ [] := by
  unfold parseFuncM at h
  split at h
  · exact Option.noConfusion h
  · rename_i name argstr hm
    obtain ⟨ar, er, hae⟩ :
        ∃ x y, parseArgsLoop t (splitSep (", ".data) argstr) {} = (x, y) :=
      ⟨_, _, rfl⟩
    simp only [hae] at h
    injection h with h'
    have hc : ({ Func := ⟨name⟩, Args := ar } : Call) = c := congrArg Prod.fst h'
    rw [← hc]
    exact matchFunc_name_ne hm

theorem appendCall_cond {c : Call} (g : Goroutine) (hraw : allRaw g)
    (hc : c.Func.Raw ≠ []) :
    (appendCall c g).Stack.Calls ≠ [] ∧ allRaw (appendCall c g) := by
  refine ⟨by simp [appendCall], ?_⟩
  intro x hx
  simp only [appendCall] at hx
  rcases List.mem_append.1 hx with h1 | h1
  · exact hraw x h1
  · rcases List.mem_singleton.1 h1 with rfl
    exact hc

theorem setLastCallLoc_cond (p : LC) (n : Int) (g : Goroutine)
    (h : g.Stack.Calls ≠ [] ∧ allRaw g) :
    (setLastCallLoc p n g).Stack.Calls ≠ [] ∧ allRaw (setLastCallLoc p n g) := by
  constructor
  · exact updateLast_ne_nil _ h.1
  · intro x hx
    have hx' : x ∈ updateLast (fun c => { c with SrcPath := p, Line := n })
        g.Stack.Calls := hx
    have h2 : ∀ x ∈ g.Stack.Calls, x.Func.Raw ≠ [] := h.2
    exact updateLast_forall (fun c => c.Func.Raw ≠ [])
      (fun c => { c with SrcPath := p, Line := n }) (fun y hy => hy)
      g.Stack.Calls h2 x hx'

theorem scanNormalBR_inv (gs : List Goroutine) (st : MState) (ind : LC)
    (races : List RaceOp) (line t : LC)
    (hL : LInv gs st) (hst : st = .normal ∨ st = .betweenRoutine) :
    GoodList (scanNormalBR ⟨false, gs, st, ind, races⟩ line t).1.goroutines ∧
    ((scanNormalBR ⟨false, gs, st, ind, races⟩ line t).2.2 = none →
      SInv (scanNormalBR ⟨false, gs, st, ind, races⟩ line t).1) := by
  unfold scanNormalBR
  split
  · rename_i p idS stS hm
    obtain ⟨id0, ok0, hio⟩ : ∃ i o, goAtoi idS = (i, o) := ⟨_, _, rfl⟩
    simp only [hio]
    cases ok0 with
    | true =>
      rw [if_pos rfl]
      have hg : lastCond .gotRoutineHeader (headerGoroutine gs.isEmpty id0 stS) := by
        show (headerGoroutine gs.isEmpty id0 stS).Stack.Calls = []
        rw [headerGoroutine_Stack]
      have hL' : LInv (gs ++ [headerGoroutine gs.isEmpty id0 stS]) .gotRoutineHeader :=
        LInv_snoc .gotRoutineHeader _ hL
          (fun g' hg' => by rcases hst with rfl | rfl <;> exact hg') hg
      exact ⟨LInv_GoodList hL', fun _ => ⟨rfl, hL'⟩⟩
    | false =>
      rw [if_neg (by simp), if_neg (by simp)]
      have hL' : LInv gs .normal := LInv_nbr hL hst .normal (Or.inl rfl)
      exact ⟨LInv_GoodList hL', fun _ => ⟨rfl, hL'⟩⟩
  · rw [if_neg (by simp)]
    have hL' : LInv gs .normal := LInv_nbr hL hst .normal (Or.inl rfl)
    exact ⟨LInv_GoodList hL', fun _ => ⟨rfl, hL'⟩⟩

theorem scanTrimmed_inv (s : ScanState) (line t : LC) (hinv : SInv s) :
    GoodList (scanTrimmed s line t).1.goroutines ∧
    ((scanTrimmed s line t).2.2 = none → SInv (scanTrimmed s line t).1) := by
  obtain ⟨race, gs, st, ind, races⟩ := s
  obtain ⟨hrace, hL⟩ := hinv
  have hr : race = false := hrace
  subst hr
  cases st with
  | normal => exact scanNormalBR_inv gs .normal ind races line t hL (Or.inl rfl)
  | betweenRoutine =>
    exact scanNormalBR_inv gs .betweenRoutine ind races line t hL (Or.inr rfl)
  | gotRoutineHeader =>
    simp only [scanTrimmed]
    split
    · have hL' : LInv (updateLast setUnavailStack gs) .gotUnavail :=
        LInv_update .gotUnavail setUnavailStack hL (fun g _ => rfl) (by simp)
      exact ⟨LInv_GoodList hL', fun _ => ⟨rfl, hL'⟩⟩
    · split
      · rename_i c e hp
        have hL' : LInv (updateLast (appendCall c) gs) .gotFunc :=
          LInv_update .gotFunc (appendCall c) hL
            (fun g hg => by
              have hg' : g.Stack.Calls = [] := hg
              exact appendCall_cond g (fun x hx => by rw [hg'] at hx; cases hx)
                (parseFuncM_raw hp))
            (by simp)
        exact ⟨LInv_GoodList hL', fun _ => ⟨rfl, hL'⟩⟩
      · exact ⟨LInv_GoodList hL, fun _ => ⟨rfl, hL⟩⟩
  | gotFunc =>
    simp only [scanTrimmed]
    split
    · exact ⟨LInv_GoodList hL, fun _ => ⟨rfl, hL⟩⟩
    · exact ⟨LInv_GoodList hL, fun _ => ⟨rfl, hL⟩⟩
    · rename_i p n hp
      have hL' : LInv (updateLast (setLastCallLoc p n) gs) .gotFileFunc :=
        LInv_update .gotFileFunc (setLastCallLoc p n) hL
          (fun g hg => setLastCallLoc_cond p n g hg) (by simp)
      exact ⟨LInv_GoodList hL', fun _ => ⟨rfl, hL'⟩⟩
  | gotCreated =>
    simp only [scanTrimmed]
    split
    · exact ⟨LInv_GoodList hL, fun _ => ⟨rfl, hL⟩⟩
    · exact ⟨LInv_GoodList hL, fun _ => ⟨rfl, hL⟩⟩
    · rename_i p n hp
      have hL' : LInv (updateLast (setCreatedByLoc p n) gs) .gotFileCreated :=
        LInv_update .gotFileCreated (setCreatedByLoc p n) hL (fun g hg => hg)
          (by simp)
      exact ⟨LInv_GoodList hL', fun _ => ⟨rfl, hL'⟩⟩
  | gotFileFunc =>
    simp only [scanTrimmed]
    split
    · rename_i raw hm
      have hL' : LInv (updateLast (setCreatedByFunc raw) gs) .gotCreated :=
        LInv_update .gotCreated (setCreatedByFunc raw) hL
          (fun g hg => Or.inr hg) (by simp)
      exact ⟨LInv_GoodList hL', fun _ => ⟨rfl, hL'⟩⟩
    · split
      · have hL' : LInv (updateLast setElided gs) .gotFileFunc :=
          LInv_update .gotFileFunc setElided hL (fun g hg => hg) (by simp)
        exact ⟨LInv_GoodList hL', fun _ => ⟨rfl, hL'⟩⟩
      · split
        · rename_i c e hp
          have hL' : LInv (updateLast (appendCall c) gs) .gotFunc :=
            LInv_update .gotFunc (appendCall c) hL
              (fun g hg => appendCall_cond g hg.2 (parseFuncM_raw hp)) (by simp)
          exact ⟨LInv_GoodList hL', fun _ => ⟨rfl, hL'⟩⟩
        · split
          · have hL' : LInv gs .betweenRoutine :=
              LInv_retarget .betweenRoutine hL (fun g hg => Or.inr hg) (by simp)
            exact ⟨LInv_GoodList hL', fun _ => ⟨rfl, hL'⟩⟩
          · have hL' : LInv gs .normal :=
              LInv_retarget .normal hL (fun g hg => Or.inr hg) (by simp)
            exact ⟨LInv_GoodList hL', fun _ => ⟨rfl, hL'⟩⟩
  | gotFileCreated =>
    simp only [scanTrimmed]
    split
    · have hL' : LInv gs .betweenRoutine :=
        LInv_retarget .betweenRoutine hL (fun g hg => hg) (by simp)
      exact ⟨LInv_GoodList hL', fun _ => ⟨rfl, hL'⟩⟩
    · have hL' : LInv gs .normal :=
        LInv_retarget .normal hL (fun g hg => hg) (by simp)
      exact ⟨LInv_GoodList hL', fun _ => ⟨rfl, hL'⟩⟩
  | gotUnavail =>
    simp only [scanTrimmed]
    split
    · have hL' : LInv gs .betweenRoutine :=
        LInv_retarget .betweenRoutine hL (fun g hg => Or.inl hg) (by simp)
      exact ⟨LInv_GoodList hL', fun _ => ⟨rfl, hL'⟩⟩
    · split
      · rename_i raw hm
        have hL' : LInv (updateLast (setCreatedByFunc raw) gs) .gotCreated :=
          LInv_update .gotCreated (setCreatedByFunc raw) hL
            (fun g hg => Or.inl hg) (by simp)
        exact ⟨LInv_GoodList hL', fun _ => ⟨rfl, hL'⟩⟩
      · exact ⟨LInv_GoodList hL, fun _ => ⟨rfl, hL⟩⟩
  | gotRaceHeader1 => exact (LInv_false hL (fun g hg => hg) (by simp)).elim
  | gotRaceHeader => exact (LInv_false hL (fun g hg => hg) (by simp)).elim
  | gotRaceOperationHeader => exact (LInv_false hL (fun g hg => hg) (by simp)).elim
  | gotRaceOperationFunc => exact (LInv_false hL (fun g hg => hg) (by simp)).elim
  | gotRaceOperationFile => exact (LInv_false hL (fun g hg => hg) (by simp)).elim
  | gotRaceGoroutineHeader => exact (LInv_false hL (fun g hg => hg) (by simp)).elim
  | gotRaceGoroutineFunc => exact (LInv_false hL (fun g hg => hg) (by simp)).elim
  | gotRaceGoroutineFile => exact (LInv_false hL (fun g hg => hg) (by simp)).elim
  | betweenRaces => exact (LInv_false hL (fun g hg => hg) (by simp)).elim

theorem scanIndented_inv (s : ScanState) (line t : LC) (hinv : SInv s) :
    GoodList (scanIndented s line t).1.goroutines ∧
    ((scanIndented s line t).2.2 = none → SInv (scanIndented s line t).1) := by
  unfold scanIndented
  split
  · split
    · exact scanTrimmed_inv s line _ hinv
    · exact ⟨LInv_GoodList hinv.2, fun hc => Option.noConfusion hc⟩
  · exact scanTrimmed_inv s line t hinv

theorem scan_inv (s : ScanState) (line : LC) (hinv : SInv s) :
    GoodList (scan s line).1.goroutines ∧
    ((scan s line).2.2 = none → SInv (scan s line).1) := by
  unfold scan
  split
  · split
    · exact ⟨LInv_GoodList hinv.2, fun _ => hinv⟩
    · exact scanIndented_inv s line line hinv
  · exact scanIndented_inv s line _ hinv

theorem runLines_inv (lines : List LC) : ∀ s : ScanState, SInv s →
    GoodList (runLines s lines).1.goroutines := by
  induction lines with
  | nil => exact fun s hinv => LInv_GoodList hinv.2
  | cons l rest ih =>
    intro s hinv
    obtain ⟨s2, ot, er, hs⟩ : ∃ a b c, scan s l = (a, b, c) := ⟨_, _, _, rfl⟩
    have h := scan_inv s l hinv
    rw [hs] at h
    rw [runLines_cons, hs]
    cases er with
    | some e => exact h.1
    | none => exact ih s2 (h.2 rfl)

theorem parseDumpLines_good (lines : List LC) :
    GoodList (parseDumpLines lines).1 :=
  runLines_inv lines {} ⟨rfl, Or.inl rfl⟩

theorem GoodList_split (pre : List Goroutine) (g : Goroutine)
    (post : List Goroutine) (h : GoodList (pre ++ g :: post)) :
    goodGor g ∨ (post = [] ∧ g.Stack.Calls = []) := by
  induction pre with
  | nil =>
    cases post with
    | nil =>
      rcases h with h1 | h2
      · exact Or.inl h1
      · exact Or.inr ⟨rfl, h2⟩
    | cons b post2 => exact Or.inl h.1
  | cons a pre ih =>
    rw [List.cons_append, GoodList_cons_cons _ _ (by simp)] at h
    exact ih h.2

/-- C7 (amended): every goroutine of the returned sequence either holds
exactly the one synthetic `<unavailable>` call, or holds a non-empty stack
of real calls (each with a non-empty raw function name); a goroutine with an
empty `Stack.Calls` can occur, but only as the last of the sequence (the one
still under construction when scanning stopped at an error or at end of
input). -/
theorem c7_calls_invariant (lines : List LC) (pre : List Goroutine)
    (g : Goroutine) (post : List Goroutine)
    (h : (parseDumpLines lines).1 = pre ++ g :: post) :
    g.Stack.Calls = [unavailCall]
    ∨ (g.Stack.Calls ≠ [] ∧ ∀ c ∈ g.Stack.Calls, c.Func.Raw ≠ [])
    ∨ (post = [] ∧ g.Stack.Calls = []) := by
  have hg := parseDumpLines_good lines
  rw [h] at hg
  rcases GoodList_split pre g post hg with hgood | hlast
  · rcases hgood with h1 | h2
    · exact Or.inl h1
    · exact Or.inr (Or.inl ⟨h2.1, h2.2⟩)
  · exact Or.inr (Or.inr hlast)

/-- Witness for C7: an unavailable-stack block yields the one synthetic
call. -/
theorem c7_witness :
    ((parseDumpLines ["goroutine 5 [running]:\n".data,
        "goroutine running on other thread; stack unavailable\n".data,
        "\n".data]).1.headD {}).Stack.Calls = [unavailCall]
    ∨ (((parseDumpLines ["goroutine 5 [running]:\n".data,
        "goroutine running on other thread; stack unavailable\n".data,
        "\n".data]).1.headD {}).Stack.Calls ≠ []
      ∧ ∀ c ∈ ((parseDumpLines ["goroutine 5 [running]:\n".data,
        "goroutine running on other thread; stack unavailable\n".data,
        "\n".data]).1.headD {}).Stack.Calls, c.Func.Raw ≠ [])
    ∨ (([] : List Goroutine) = []
      ∧ ((parseDumpLines ["goroutine 5 [running]:\n".data,
        "goroutine running on other thread; stack unavailable\n".data,
        "\n".data]).1.headD {}).Stack.Calls = []) :=
  c7_calls_invariant ["goroutine 5 [running]:\n".data,
      "goroutine running on other thread; stack unavailable\n".data,
      "\n".data] [] _ [] (by rfl)

end PP
